import Mathlib

/-!
Verification of the visual-html-builder editor engine against its
natural-language specification.  The TypeScript source is embedded
shallowly: pure helpers become Lean functions, the mutable editor state
becomes an explicit `EngineState` record threaded through the operations,
and the JavaScript heap aliasing of nested arrays is made explicit through
an array store addressed by references.
-/

namespace VHB

/-- One character of browser text-node serialization.  The source's
`escapeHtml` writes the input into a DOM text node and reads back
`innerHTML`; per the WHATWG serialization algorithm this replaces
ampersand, no-break space, less-than and greater-than by character
references and leaves every other character (including the double quote)
unchanged. -/
def escChar (c : Char) : List Char :=
  if c = '&' then "&amp;".data
  else if c = Char.ofNat 160 then "&nbsp;".data
  else if c = '<' then "&lt;".data
  else if c = '>' then "&gt;".data
  else [c]

/-- `UtilityHelpers.escapeHtml` / `HTMLTemplateHelper.escapeHtml`:
text-node serialization of the input string. -/
def escapeHtml (s : String) : String :=
  String.mk (s.data.flatMap escChar)

/-- Counting (possibly overlapping) occurrences of a pattern in a string,
one test per start position. -/
def occursCount (p : List Char) : List Char → Nat
  | [] => if p.isPrefixOf ([] : List Char) then 1 else 0
  | c :: s => (if p.isPrefixOf (c :: s) then 1 else 0) + occursCount p s

theorem occursCount_nil (p : List Char) (h : p ≠ []) :
    occursCount p [] = 0 := by
  cases p with
  | nil => exact absurd rfl h
  | cons c s => simp [occursCount, List.isPrefixOf]

theorem occursCount_cons (p : List Char) (c : Char) (s : List Char) :
    occursCount p (c :: s) =
      (if p.isPrefixOf (c :: s) then 1 else 0) + occursCount p s := rfl

/-- Positivity of the count is existence of a decomposition around the
pattern. -/
theorem occursCount_pos_iff (p s : List Char) :
    0 < occursCount p s ↔ ∃ x y, s = x ++ p ++ y := by
  induction s with
  | nil =>
    constructor
    · intro h
      cases p with
      | nil => exact ⟨[], [], rfl⟩
      | cons c q => simp [occursCount, List.isPrefixOf] at h
    · rintro ⟨x, y, hxy⟩
      have h0 : x ++ p ++ y = [] := hxy.symm
      have hp : p = [] := by
        rcases List.append_eq_nil.mp h0 with ⟨h1, _⟩
        exact (List.append_eq_nil.mp h1).2
      subst hp
      simp [occursCount, List.isPrefixOf]
  | cons c s ih =>
    rw [occursCount_cons]
    constructor
    · intro h
      by_cases hpre : p.isPrefixOf (c :: s)
      · rcases (List.isPrefixOf_iff_prefix.mp hpre) with ⟨y, hy⟩
        exact ⟨[], y, by simp [hy.symm]⟩
      · simp [hpre] at h
        rcases ih.mp h with ⟨x, y, hxy⟩
        exact ⟨c :: x, y, by simp [hxy]⟩
    · rintro ⟨x, y, hxy⟩
      cases x with
      | nil =>
        have : p.isPrefixOf (c :: s) := by
          simp at hxy
          exact List.isPrefixOf_iff_prefix.mpr ⟨y, by simp [hxy]⟩
        simp [this]
      | cons a x' =>
        have hs : s = x' ++ p ++ y := by
          simpa using congrArg List.tail hxy
        have := ih.mpr ⟨x', y, hs⟩
        omega

theorem occursCount_eq_zero_iff (p s : List Char) :
    occursCount p s = 0 ↔ ¬ ∃ x y, s = x ++ p ++ y := by
  rw [← occursCount_pos_iff]
  omega

/-- A zero count transfers down to any infix. -/
theorem occursCount_zero_of_infix (p s t : List Char)
    (hz : occursCount p s = 0) (ht : t <:+: s) : occursCount p t = 0 := by
  rw [occursCount_eq_zero_iff] at hz ⊢
  rintro ⟨x, y, hxy⟩
  rcases ht with ⟨u, v, huv⟩
  exact hz ⟨u ++ x, y ++ v, by simp [← huv, hxy]⟩

/-- A pattern that starts a concatenation either fits inside the first
block or swallows it whole. -/
theorem prefix_append_cases (m a b : List Char) (h : m <+: a ++ b) :
    m <+: a ∨ a <+: m := by
  by_cases hl : m.length ≤ a.length
  · left
    have := List.prefix_iff_eq_take.mp h
    rw [List.take_append_of_le_length hl] at this
    exact this ▸ List.take_prefix _ _
  · right
    exact List.prefix_of_prefix_length_le (List.prefix_append a b) h (by omega)

/-- Every suffix of `lit` is prefix-incomparable with the pattern `m`:
no occurrence of `m` can start inside `lit`, whatever follows it. -/
def litSafe (m lit : List Char) : Bool :=
  (List.range lit.length).all fun i =>
    (!(m.isPrefixOf (lit.drop i))) && (!((lit.drop i).isPrefixOf m))

theorem occursCount_litSafe (m lit rest : List Char)
    (h : litSafe m lit = true) :
    occursCount m (lit ++ rest) = occursCount m rest := by
  induction lit with
  | nil => simp
  | cons c l ih =>
    have hall := List.all_eq_true.mp h
    have h0 := hall 0 (by simp)
    simp only [List.drop_zero, Bool.and_eq_true, Bool.not_eq_true'] at h0
    have htail : litSafe m l = true := by
      apply List.all_eq_true.mpr
      intro i hi
      have := hall (i + 1) (by simp at hi ⊢; omega)
      simpa using this
    rw [List.cons_append, occursCount_cons]
    have hnot : m.isPrefixOf (c :: (l ++ rest)) = false := by
      rw [← Bool.not_eq_true]
      intro hpre
      have hpre' : m <+: (c :: l) ++ rest := by
        simpa using List.isPrefixOf_iff_prefix.mp hpre
      rcases prefix_append_cases m (c :: l) rest hpre' with h1 | h1
      · rw [← List.isPrefixOf_iff_prefix] at h1
        rw [h0.1] at h1
        exact Bool.false_ne_true h1
      · rw [← List.isPrefixOf_iff_prefix] at h1
        rw [h0.2] at h1
        exact Bool.false_ne_true h1
    simp [hnot, ih htail]

/-- No occurrence can start inside a block that omits the pattern's first
character. -/
theorem occursCount_append_headFree (h : Char) (m a b : List Char)
    (hm : h ∉ a) :
    occursCount (h :: m) (a ++ b) = occursCount (h :: m) b := by
  induction a with
  | nil => simp
  | cons c l ih =>
    have hc : c ≠ h := fun hch => hm (by simp [hch])
    have hl : h ∉ l := fun hmem => hm (by simp [hmem])
    rw [List.cons_append, occursCount_cons]
    have : ¬ (h :: m).isPrefixOf (c :: (l ++ b)) := by
      intro hpre
      rcases List.isPrefixOf_iff_prefix.mp hpre with ⟨t, ht⟩
      have : h = c := by
        have := congrArg (List.head? ·) ht
        simpa using this
      exact hc this.symm
    simp [this, ih hl]

theorem occursCount_headFree (h : Char) (m s : List Char) (hm : h ∉ s) :
    occursCount (h :: m) s = 0 := by
  have := occursCount_append_headFree h m s [] hm
  simpa using this

/-- Splitting at an inserted separator character that the pattern does not
contain: occurrences count on each side independently. -/
theorem occursCount_sep (sep : Char) (m a b : List Char) (hm : sep ∉ m) :
    occursCount m (a ++ sep :: b) = occursCount m a + occursCount m b := by
  induction a with
  | nil =>
    rcases m with _ | ⟨c, m'⟩
    · simp [occursCount, List.isPrefixOf]
    · have : ¬ (c :: m').isPrefixOf (sep :: b) := by
        intro hpre
        rcases List.isPrefixOf_iff_prefix.mp hpre with ⟨t, ht⟩
        have : c = sep := by
          have := congrArg (List.head? ·) ht
          simpa using this
        exact hm (by simp [this])
      simp [occursCount_cons, this, occursCount_nil]
  | cons c l ih =>
    rw [List.cons_append, occursCount_cons, occursCount_cons, ih]
    have hiff : m <+: (c :: (l ++ sep :: b)) ↔ m <+: (c :: l) := by
      constructor
      · intro hp
        have hp' : m <+: (c :: l) ++ sep :: b := by simpa using hp
        rcases prefix_append_cases m (c :: l) (sep :: b) hp' with h1 | h1
        · exact h1
        · rcases h1 with ⟨t, ht⟩
          cases t with
          | nil =>
            rw [← ht]
            simp
          | cons d t' =>
            exfalso
            have hp2 : (c :: l) ++ d :: t' <+: (c :: l) ++ sep :: b := by
              rw [ht]
              exact hp'
            have hdt : d :: t' <+: sep :: b :=
              (List.prefix_append_right_inj (c :: l)).mp hp2
            have hd : d = sep := by
              rcases hdt with ⟨u, hu⟩
              have := congrArg (List.head? ·) hu
              simpa using this
            apply hm
            rw [← ht, hd]
            simp
      · intro hp
        exact hp.trans (by simp)
    by_cases hp : m <+: (c :: l)
    · rw [if_pos (List.isPrefixOf_iff_prefix.mpr (hiff.mpr hp)),
        if_pos (List.isPrefixOf_iff_prefix.mpr hp)]
      omega
    · rw [if_neg (fun h => hp (hiff.mp (List.isPrefixOf_iff_prefix.mp h))),
        if_neg (fun h => hp (List.isPrefixOf_iff_prefix.mp h))]
      omega

/-- `Array.prototype.join('\n')` on the pushed `parts` list. -/
def joinNl : List (List Char) → List Char
  | [] => []
  | [x] => x
  | x :: y :: xs => x ++ '\n' :: joinNl (y :: xs)

theorem occursCount_joinNl (m : List Char) (L : List (List Char))
    (hm : '\n' ∉ m) (hne : m ≠ []) :
    occursCount m (joinNl L) = (L.map (occursCount m)).sum := by
  induction L with
  | nil => simp [joinNl, occursCount_nil m hne]
  | cons x xs ih =>
    cases xs with
    | nil => simp [joinNl]
    | cons y ys =>
      rw [joinNl, occursCount_sep '\n' m x (joinNl (y :: ys)) hm, ih]
      simp

/-! ## Template model (`HTMLTemplateHelper`)

JavaScript objects carrying attribute bags (`Record<string, string>`,
`MetaElement`, `LinkElement`, `ScriptElement`) are embedded as ordered
association lists; an `undefined` field is simply absent from the list, and
list order is JS object insertion order (which `Object.entries` follows).
Values are strings or booleans, matching the TypeScript field types. -/

/-- A JavaScript value inside a template attribute bag. -/
inductive AVal where
  | str (s : String)
  | boolV (b : Bool)
deriving DecidableEq

/-- An ordered JS object of attribute values. -/
abbrev AttrObj := List (String × AVal)

/-- JS truthiness of an attribute-bag value: the empty string and `false`
are falsy, everything else is truthy. -/
def jsTruthy : AVal → Bool
  | .str s => !(s == "")
  | .boolV b => b

/-- Property lookup on a JS object (`obj[key]`, `undefined` when absent). -/
def jsGet (o : AttrObj) (k : String) : Option AVal :=
  (o.find? (fun kv => kv.1 == k)).map (fun kv => kv.2)

/-- Truthiness test of `obj.key` (`undefined` is falsy). -/
def truthyGet (o : AttrObj) (k : String) : Bool :=
  match jsGet o k with
  | some v => jsTruthy v
  | none => false

/-- Truthiness of an optional string field. -/
def truthyS : Option String → Bool
  | some s => !(s == "")
  | none => false

/-- `a || b` on optional string fields (empty string falls through). -/
def jsOrS (a b : Option String) : Option String :=
  if truthyS a then a else b

/-- `a || b` on optional array fields; a supplied array (even `[]`) is
truthy in JS, so it always wins. -/
def jsOrArr (a b : Option (List AttrObj)) : Option (List AttrObj) :=
  match a with
  | some l => some l
  | none => b

/-- JS object spread `\x7b...a, ...b\x7d`: keys of `a` in order with values
overridden by `b`, then the new keys of `b` in order. -/
def spreadMerge (a b : AttrObj) : AttrObj :=
  (a.map fun kv =>
    match b.find? (fun e => e.1 == kv.1) with
    | some e => (kv.1, e.2)
    | none => kv) ++
  b.filter (fun e => !(a.any (fun kv => kv.1 == e.1)))

/-- `HeadConfig`: all fields optional as in the TypeScript interface. -/
structure HeadConfig where
  title : Option String := none
  meta : Option (List AttrObj) := none
  links : Option (List AttrObj) := none
  scripts : Option (List AttrObj) := none
  customHead : Option String := none
deriving DecidableEq

/-- `HTMLTemplate`: all fields optional as in the TypeScript interface. -/
structure HTMLTemplate where
  doctype : Option String := none
  htmlAttributes : Option AttrObj := none
  head : Option HeadConfig := none
  bodyAttributes : Option AttrObj := none
deriving DecidableEq

/-- `HTMLTemplateHelper.getDefaultTemplate`. -/
def getDefaultTemplate : HTMLTemplate where
  doctype := some "<!DOCTYPE html>"
  htmlAttributes := some [("lang", .str "en")]
  head := some
    { title := some "Generated HTML"
      meta := some
        [ [("charset", .str "UTF-8")]
        , [("name", .str "viewport"),
           ("content", .str "width=device-width, initial-scale=1.0")] ]
      links := some []
      scripts := some []
      customHead := some "" }
  bodyAttributes := some []

/-- `String.prototype.includes`. -/
def jsIncludes (s sub : String) : Bool :=
  !(occursCount sub.data s.data == 0)

/-- `template.head?.title` (optional chaining). -/
def headTitleOf (t : HTMLTemplate) : Option String :=
  match t.head with
  | some h => h.title
  | none => none

/-- `template.head?.meta`. -/
def headMetaOf (t : HTMLTemplate) : Option (List AttrObj) :=
  match t.head with
  | some h => h.meta
  | none => none

/-- `template.head?.links`. -/
def headLinksOf (t : HTMLTemplate) : Option (List AttrObj) :=
  match t.head with
  | some h => h.links
  | none => none

/-- `template.head?.scripts`. -/
def headScriptsOf (t : HTMLTemplate) : Option (List AttrObj) :=
  match t.head with
  | some h => h.scripts
  | none => none

/-- `template.head?.customHead`. -/
def headCustomOf (t : HTMLTemplate) : Option String :=
  match t.head with
  | some h => h.customHead
  | none => none

/-- First offending meta entry, in source order
(`!meta.charset && !meta.name && !meta.property && !meta.httpEquiv`). -/
def firstMetaError : List AttrObj → Option String
  | [] => none
  | m :: rest =>
    if !(truthyGet m "charset") && !(truthyGet m "name") &&
       !(truthyGet m "property") && !(truthyGet m "httpEquiv") then
      some "Meta element must have at least one of: charset, name, property, or http-equiv"
    else firstMetaError rest

/-- First offending link entry, in source order (`rel` required;
`rel === 'stylesheet'` additionally requires `href`). -/
def firstLinkError : List AttrObj → Option String
  | [] => none
  | l :: rest =>
    if !(truthyGet l "rel") then
      some "Link element must have rel attribute"
    else if (match jsGet l "rel" with
             | some (.str r) => r == "stylesheet"
             | _ => false) && !(truthyGet l "href") then
      some "Stylesheet link must have href attribute"
    else firstLinkError rest

/-- `HTMLTemplateHelper.validateTemplate`: sequential checks, first
violation wins, `none` when everything passes.  Truthiness guards mean an
empty-string field is skipped exactly as `undefined` is. -/
def validateTemplate (t : HTMLTemplate) : Option String :=
  if truthyS t.doctype &&
     !(jsIncludes (String.toLower (t.doctype.getD "")) "doctype") then
    some "Invalid doctype format"
  else if truthyS (headTitleOf t) &&
          ((headTitleOf t).getD "").length > 200 then
    some "Title is too long (max 200 characters)"
  else
    match (match headMetaOf t with
           | some ms => firstMetaError ms
           | none => none) with
    | some e => some e
    | none =>
      match headLinksOf t with
      | some ls => firstLinkError ls
      | none => none

/-- One attribute rendered by `buildAttributes`: a boolean `true` renders
as the bare key, a string renders as `key="escaped value"`. -/
def buildAttr1 (kv : String × AVal) : List Char :=
  match kv.2 with
  | .boolV _ => kv.1.data
  | .str s => kv.1.data ++ '=' :: '"' :: (escapeHtml s).data ++ ['"']

/-- `Array.prototype.join(' ')`. -/
def joinSp : List (List Char) → List Char
  | [] => []
  | [x] => x
  | x :: y :: xs => x ++ ' ' :: joinSp (y :: xs)

/-- `HTMLTemplateHelper.buildAttributes`: filters out `false` values
(`undefined`/`null` are absent from the list), renders each entry, joins
with single spaces, and prepends a space when non-empty. -/
def buildAttributes (o : AttrObj) : List Char :=
  if ((o.filter fun kv => !(kv.2 == AVal.boolV false)).map buildAttr1).isEmpty
  then []
  else ' ' :: joinSp ((o.filter fun kv => !(kv.2 == AVal.boolV false)).map buildAttr1)

/-- `String.prototype.split('\n')` at the character-list level. -/
def splitNl : List Char → List (List Char)
  | [] => [[]]
  | c :: rest =>
    match splitNl rest with
    | [] => [[c]]
    | h :: t => if c = '\n' then [] :: h :: t else (c :: h) :: t

/-- `String.prototype.trim()` at the character-list level. -/
def trimChars (l : List Char) : List Char :=
  ((l.dropWhile Char.isWhitespace).reverse.dropWhile Char.isWhitespace).reverse

/-- `${script.content}` interpolation of the (truthy) content value. -/
def scriptContentChars (s : AttrObj) : List Char :=
  match jsGet s "content" with
  | some (.str x) => x.data
  | some (.boolV true) => "true".data
  | _ => []

/-- The attribute object assembled for an inline script from its
`type`/`async`/`defer` fields (each added only when truthy). -/
def inlineScriptAttrs (s : AttrObj) : AttrObj :=
  (match jsGet s "type" with
   | some v => if jsTruthy v then [("type", v)] else []
   | none => []) ++
  (match jsGet s "async" with
   | some v => if jsTruthy v then [("async", v)] else []
   | none => []) ++
  (match jsGet s "defer" with
   | some v => if jsTruthy v then [("defer", v)] else []
   | none => [])

/-- The `parts` pushed for one script entry: an inline script (truthy
`content`) renders open tag, indented content and close tag from the
`type`/`async`/`defer` fields only; otherwise a truthy `src` renders one
self-closing line from the whole entry; otherwise nothing. -/
def scriptParts1 (s : AttrObj) : List (List Char) :=
  if truthyGet s "content" then
    [ "  <script".data ++ buildAttributes (inlineScriptAttrs s) ++ ['>'],
      "    ".data ++ scriptContentChars s,
      "  </script>".data ]
  else if truthyGet s "src" then
    [ "  <script".data ++ buildAttributes s ++ "></script>".data ]
  else []

/-- The `parts` list accumulated by `buildHeadSection`, in push order:
title, meta entries, link entries, script entries, then the trimmed,
re-indented non-empty lines of `customHead`. -/
def headParts (hc : HeadConfig) : List (List Char) :=
  (if truthyS hc.title then
    [ "  <title>".data ++ (escapeHtml (hc.title.getD "")).data ++ "</title>".data ]
   else []) ++
  ((hc.meta.getD []).map fun m => "  <meta".data ++ buildAttributes m ++ ['>']) ++
  ((hc.links.getD []).map fun l => "  <link".data ++ buildAttributes l ++ ['>']) ++
  ((hc.scripts.getD []).flatMap scriptParts1) ++
  (if truthyS hc.customHead then
    (((splitNl (hc.customHead.getD "").data).map trimChars).filter
       (fun l => !(l.isEmpty))).map (fun l => ' ' :: ' ' :: l)
   else [])

/-- `HTMLTemplateHelper.buildHeadSection`: the parts joined by newlines. -/
def buildHeadSection (hc : HeadConfig) : List Char :=
  joinNl (headParts hc)

/-- The merge of a supplied template over the full default template, as
computed at the top of `generateFullHTML`: `||` for the scalar and array
fields (arrays, even empty, win wholesale when supplied), object spread
for the two attribute maps. -/
def mergedTemplateOf (t : HTMLTemplate) : HTMLTemplate where
  doctype := jsOrS t.doctype getDefaultTemplate.doctype
  htmlAttributes :=
    some (spreadMerge ((getDefaultTemplate.htmlAttributes).getD [])
      (t.htmlAttributes.getD []))
  head := some
    { title := jsOrS (headTitleOf t) (headTitleOf getDefaultTemplate)
      meta := jsOrArr (headMetaOf t) (headMetaOf getDefaultTemplate)
      links := jsOrArr (headLinksOf t) (headLinksOf getDefaultTemplate)
      scripts := jsOrArr (headScriptsOf t) (headScriptsOf getDefaultTemplate)
      customHead := jsOrS (headCustomOf t) (headCustomOf getDefaultTemplate) }
  bodyAttributes :=
    some (spreadMerge ((getDefaultTemplate.bodyAttributes).getD [])
      (t.bodyAttributes.getD []))

/-- `HTMLTemplateHelper.generateFullHTML`: merge with defaults, build the
attribute strings and the head section, and join the nine document lines.
The call to `validateTemplate` in the source only logs a development
warning and does not influence the output, so it does not appear here. -/
def generateFullHTML (bodyContent : String) (t : HTMLTemplate) : String :=
  let m := mergedTemplateOf t
  String.mk (joinNl
    [ (m.doctype.getD "").data
    , "<html".data ++ buildAttributes (m.htmlAttributes.getD []) ++ ['>']
    , "<head>".data
    , buildHeadSection (m.head.getD {})
    , "</head>".data
    , "<body".data ++ buildAttributes (m.bodyAttributes.getD []) ++ ['>']
    , bodyContent.data
    , "</body>".data
    , "</html>".data ])

/-! ## Structural-uniqueness toolkit for the assembled document -/

/-- The five skeleton markers whose occurrence counts the template
round-trip property speaks about. -/
def mHtml : List Char := ['<', 'h', 't', 'm', 'l']

def mHeadO : List Char := ['<', 'h', 'e', 'a', 'd', '>']

def mHeadC : List Char := ['<', '/', 'h', 'e', 'a', 'd', '>']

def mBodyO : List Char := ['<', 'b', 'o', 'd', 'y']

def mBodyC : List Char := ['<', '/', 'b', 'o', 'd', 'y', '>']

def markers : List (List Char) := [mHtml, mHeadO, mHeadC, mBodyO, mBodyC]

/-- A string containing none of the five skeleton markers. -/
def markerFree (s : List Char) : Prop :=
  ∀ m ∈ markers, occursCount m s = 0

theorem escChar_ltFree (c : Char) : '<' ∉ escChar c := by
  unfold escChar
  split_ifs with h1 h2 h3 h4
  · decide
  · decide
  · decide
  · decide
  · simp
    exact fun h => h3 h.symm

theorem escapeHtml_ltFree (s : String) : '<' ∉ (escapeHtml s).data := by
  show '<' ∉ s.data.flatMap escChar
  intro hmem
  rcases List.mem_flatMap.mp hmem with ⟨c, _, hc⟩
  exact escChar_ltFree c hc

/-- An attribute object whose keys avoid the `<` character. -/
def keysLtFree (o : AttrObj) : Prop :=
  ∀ kv ∈ o, '<' ∉ kv.1.data

theorem buildAttr1_ltFree (kv : String × AVal) (hk : '<' ∉ kv.1.data) :
    '<' ∉ buildAttr1 kv := by
  rcases kv with ⟨k, v⟩
  cases v with
  | boolV b => exact hk
  | str s =>
    intro hmem
    rcases List.mem_append.mp hmem with h | h
    · rcases List.mem_append.mp h with h1 | h1
      · exact hk h1
      · simp only [List.mem_cons] at h1
        rcases h1 with h1 | h1 | h1
        · exact absurd h1 (by decide)
        · exact absurd h1 (by decide)
        · exact escapeHtml_ltFree s h1
    · simp at h

theorem joinSp_subset (L : List (List Char)) (c : Char) (hc : c ∈ joinSp L) :
    c = ' ' ∨ ∃ l ∈ L, c ∈ l := by
  induction L with
  | nil => simp [joinSp] at hc
  | cons x xs ih =>
    cases xs with
    | nil =>
      rw [joinSp] at hc
      exact Or.inr ⟨x, by simp, hc⟩
    | cons y ys =>
      rw [joinSp] at hc
      rcases List.mem_append.mp hc with h | h
      · exact Or.inr ⟨x, by simp, h⟩
      · rcases List.mem_cons.mp h with h' | h'
        · exact Or.inl h'
        · rcases ih h' with h'' | ⟨l, hl, hcl⟩
          · exact Or.inl h''
          · exact Or.inr ⟨l, by simp [hl], hcl⟩

theorem buildAttributes_ltFree (o : AttrObj) (hk : keysLtFree o) :
    '<' ∉ buildAttributes o := by
  unfold buildAttributes
  split
  · simp
  · intro hmem
    rcases List.mem_cons.mp hmem with h | h
    · exact absurd h (by decide)
    · rcases joinSp_subset _ _ h with h' | ⟨l, hl, hcl⟩
      · exact absurd h' (by decide)
      · rcases List.mem_map.mp hl with ⟨kv, hkv, rfl⟩
        have hmem2 : kv ∈ o := (List.mem_filter.mp hkv).1
        exact buildAttr1_ltFree kv (hk kv hmem2) hcl

/-- Head-character form of `occursCount_append_headFree`. -/
theorem occ_append_headLt (m a b : List Char)
    (hhead : m.head? = some '<') (hfree : '<' ∉ a) :
    occursCount m (a ++ b) = occursCount m b := by
  cases m with
  | nil => simp at hhead
  | cons c m' =>
    have : c = '<' := by simpa using hhead
    subst this
    exact occursCount_append_headFree '<' m' a b hfree

/-- A `<tag` literal that cannot start an occurrence, followed by a
`<`-free middle and a marker-free tail, contributes no occurrence. -/
theorem occ_tagLine_zero (m tag attrs tail : List Char)
    (hlit : litSafe m tag = true) (hhead : m.head? = some '<')
    (hfree : '<' ∉ attrs) (htail : occursCount m tail = 0) :
    occursCount m (tag ++ attrs ++ tail) = 0 := by
  rw [List.append_assoc, occursCount_litSafe m tag _ hlit,
    occ_append_headLt m attrs tail hhead hfree, htail]

/-- The line that opens with the marker itself contributes exactly one
occurrence. -/
theorem occ_self_tag (m attrs tail : List Char)
    (hhead : m.head? = some '<') (hlit : litSafe m (m.drop 1) = true)
    (hfree : '<' ∉ attrs) (htail : occursCount m tail = 0) :
    occursCount m (m ++ attrs ++ tail) = 1 := by
  cases m with
  | nil => simp at hhead
  | cons c m' =>
    have hc : c = '<' := by simpa using hhead
    subst hc
    have hsh : ('<' :: m') ++ attrs ++ tail = '<' :: (m' ++ (attrs ++ tail)) := by
      simp
    rw [hsh, occursCount_cons]
    have hpre : ('<' :: m').isPrefixOf ('<' :: (m' ++ (attrs ++ tail))) := by
      apply List.isPrefixOf_iff_prefix.mpr
      have : '<' :: (m' ++ (attrs ++ tail)) = ('<' :: m') ++ (attrs ++ tail) := by
        simp
      rw [this]
      exact List.prefix_append _ _
    rw [if_pos hpre,
      occursCount_litSafe ('<' :: m') m' (attrs ++ tail) (by simpa using hlit),
      occ_append_headLt ('<' :: m') attrs tail rfl hfree, htail]

theorem splitNl_ne_nil (s : List Char) : splitNl s ≠ [] := by
  induction s with
  | nil => simp [splitNl]
  | cons c rest ih =>
    rcases h : splitNl rest with _ | ⟨hd, tl⟩
    · exact absurd h ih
    · unfold splitNl
      rw [h]
      dsimp only
      split <;> simp

theorem splitNl_spec (s : List Char) :
    ((splitNl s).headD [] <+: s) ∧ ∀ p ∈ splitNl s, p <:+: s := by
  induction s with
  | nil =>
    refine ⟨by simp [splitNl], ?_⟩
    intro p hp
    simp [splitNl] at hp
    subst hp
    exact List.infix_rfl
  | cons c rest ih =>
    obtain ⟨ih1, ih2⟩ := ih
    rcases h : splitNl rest with _ | ⟨hd, tl⟩
    · exact absurd h (splitNl_ne_nil rest)
    · rw [h] at ih1 ih2
      by_cases hc : c = '\n'
      · have hs : splitNl (c :: rest) = [] :: hd :: tl := by
          unfold splitNl
          rw [h]
          dsimp only
          rw [if_pos hc]
        rw [hs]
        refine ⟨List.nil_prefix, ?_⟩
        intro p hp
        rcases List.mem_cons.mp hp with rfl | hp'
        · exact List.nil_infix
        · exact (ih2 p hp').trans (List.infix_cons List.infix_rfl)
      · have hs : splitNl (c :: rest) = (c :: hd) :: tl := by
          unfold splitNl
          rw [h]
          dsimp only
          rw [if_neg hc]
        rw [hs]
        have hpre : c :: hd <+: c :: rest := by
          simp at ih1
          exact List.cons_prefix_cons.mpr ⟨rfl, ih1⟩
        refine ⟨by simpa using hpre, ?_⟩
        intro p hp
        rcases List.mem_cons.mp hp with rfl | hp'
        · exact hpre.isInfix
        · exact (ih2 p (by simp [hp'])).trans (List.infix_cons List.infix_rfl)

theorem marker_cases (m : List Char) (hm : m ∈ markers) :
    m = mHtml ∨ m = mHeadO ∨ m = mHeadC ∨ m = mBodyO ∨ m = mBodyC := by
  simpa [markers] using hm

theorem marker_ne_nil (m : List Char) (hm : m ∈ markers) : m ≠ [] := by
  rcases marker_cases m hm with rfl | rfl | rfl | rfl | rfl <;> decide

theorem marker_no_nl (m : List Char) (hm : m ∈ markers) : '\n' ∉ m := by
  rcases marker_cases m hm with rfl | rfl | rfl | rfl | rfl <;> decide

theorem marker_headLt (m : List Char) (hm : m ∈ markers) :
    m.head? = some '<' := by
  rcases marker_cases m hm with rfl | rfl | rfl | rfl | rfl <;> decide

theorem marker_litSafe_title (m : List Char) (hm : m ∈ markers) :
    litSafe m "  <title>".data = true := by
  rcases marker_cases m hm with rfl | rfl | rfl | rfl | rfl <;> decide

theorem marker_occ_titleClose (m : List Char) (hm : m ∈ markers) :
    occursCount m "</title>".data = 0 := by
  rcases marker_cases m hm with rfl | rfl | rfl | rfl | rfl <;> decide

theorem marker_litSafe_meta (m : List Char) (hm : m ∈ markers) :
    litSafe m "  <meta".data = true := by
  rcases marker_cases m hm with rfl | rfl | rfl | rfl | rfl <;> decide

theorem marker_litSafe_link (m : List Char) (hm : m ∈ markers) :
    litSafe m "  <link".data = true := by
  rcases marker_cases m hm with rfl | rfl | rfl | rfl | rfl <;> decide

theorem marker_litSafe_script (m : List Char) (hm : m ∈ markers) :
    litSafe m "  <script".data = true := by
  rcases marker_cases m hm with rfl | rfl | rfl | rfl | rfl <;> decide

theorem marker_occ_gt (m : List Char) (hm : m ∈ markers) :
    occursCount m ['>'] = 0 := by
  rcases marker_cases m hm with rfl | rfl | rfl | rfl | rfl <;> decide

theorem marker_occ_scriptClose (m : List Char) (hm : m ∈ markers) :
    occursCount m "  </script>".data = 0 := by
  rcases marker_cases m hm with rfl | rfl | rfl | rfl | rfl <;> decide

theorem marker_occ_srcTail (m : List Char) (hm : m ∈ markers) :
    occursCount m "></script>".data = 0 := by
  rcases marker_cases m hm with rfl | rfl | rfl | rfl | rfl <;> decide

theorem trimChars_within (l : List Char) : trimChars l <:+: l := by
  unfold trimChars
  have h1 : l.dropWhile Char.isWhitespace <:+ l := List.dropWhile_suffix _
  have h2 : ((l.dropWhile Char.isWhitespace).reverse.dropWhile
      Char.isWhitespace).reverse <+: l.dropWhile Char.isWhitespace := by
    have := List.dropWhile_suffix (l := (l.dropWhile Char.isWhitespace).reverse)
      (p := Char.isWhitespace)
    rcases this with ⟨t, ht⟩
    refine ⟨t.reverse, ?_⟩
    have := congrArg List.reverse ht
    simpa [List.reverse_append] using this
  exact h2.isInfix.trans h1.isInfix

theorem optAttrPiece_keysLtFree (k0 : String) (hk0 : '<' ∉ k0.data)
    (o : Option AVal) :
    keysLtFree (match o with
                | some v => if jsTruthy v then [(k0, v)] else []
                | none => []) := by
  intro kv hkv
  cases o with
  | none => simp at hkv
  | some v =>
    split at hkv
    · split at hkv
      · rw [List.mem_singleton] at hkv
        rw [hkv]
        exact hk0
      · simp at hkv
    · simp at hkv

theorem inlineScriptAttrs_keysLtFree (s : AttrObj) :
    keysLtFree (inlineScriptAttrs s) := by
  intro kv hkv
  unfold inlineScriptAttrs at hkv
  rcases List.mem_append.mp hkv with h | h
  · rcases List.mem_append.mp h with h1 | h1
    · exact optAttrPiece_keysLtFree "type" (by decide) _ kv h1
    · exact optAttrPiece_keysLtFree "async" (by decide) _ kv h1
  · exact optAttrPiece_keysLtFree "defer" (by decide) _ kv h

/-- Every line pushed by `buildHeadSection` is free of skeleton markers,
provided the attribute keys avoid `<`, the raw script contents are
marker-free, and the raw custom head fragment is marker-free. -/
theorem headParts_occ_zero (m : List Char) (hm : m ∈ markers)
    (hc : HeadConfig)
    (hmetaK : ∀ o ∈ hc.meta.getD [], keysLtFree o)
    (hlinkK : ∀ o ∈ hc.links.getD [], keysLtFree o)
    (hscriptK : ∀ o ∈ hc.scripts.getD [], keysLtFree o)
    (hcontent : ∀ o ∈ hc.scripts.getD [],
      occursCount m (scriptContentChars o) = 0)
    (hcustom : occursCount m (hc.customHead.getD "").data = 0) :
    occursCount m (buildHeadSection hc) = 0 := by
  unfold buildHeadSection
  rw [occursCount_joinNl m _ (marker_no_nl m hm) (marker_ne_nil m hm)]
  apply List.sum_eq_zero
  intro x hx
  rcases List.mem_map.mp hx with ⟨line, hline, rfl⟩
  unfold headParts at hline
  rcases List.mem_append.mp hline with h | h
  rotate_left
  · -- custom head lines
    split at h
    · rcases List.mem_map.mp h with ⟨l, hl, rfl⟩
      have hl2 := List.mem_filter.mp hl
      rcases List.mem_map.mp hl2.1 with ⟨p, hp, rfl⟩
      show occursCount m ([' ', ' '] ++ trimChars p) = 0
      rw [occ_append_headLt m _ _ (marker_headLt m hm) (by decide)]
      exact occursCount_zero_of_infix m _ _ hcustom
        ((trimChars_within p).trans ((splitNl_spec _).2 p hp))
    · simp at h
  rcases List.mem_append.mp h with h | h
  rotate_left
  · -- script entry lines
    rcases List.mem_flatMap.mp h with ⟨o, ho, hlo⟩
    unfold scriptParts1 at hlo
    split at hlo
    · simp only [List.mem_cons] at hlo
      rcases hlo with rfl | rfl | hlo
      · exact occ_tagLine_zero m _ _ _ (marker_litSafe_script m hm)
          (marker_headLt m hm)
          (buildAttributes_ltFree _ (inlineScriptAttrs_keysLtFree o))
          (marker_occ_gt m hm)
      · rw [occ_append_headLt m _ _ (marker_headLt m hm) (by decide)]
        exact hcontent o ho
      · simp at hlo
        rw [hlo]
        exact marker_occ_scriptClose m hm
    · split at hlo
      · simp at hlo
        rw [hlo]
        exact occ_tagLine_zero m _ _ _ (marker_litSafe_script m hm)
          (marker_headLt m hm)
          (buildAttributes_ltFree _ (hscriptK o ho))
          (marker_occ_srcTail m hm)
      · simp at hlo
  rcases List.mem_append.mp h with h | h
  rotate_left
  · -- link lines
    rcases List.mem_map.mp h with ⟨o, ho, rfl⟩
    exact occ_tagLine_zero m _ _ _ (marker_litSafe_link m hm)
      (marker_headLt m hm) (buildAttributes_ltFree _ (hlinkK o ho))
      (marker_occ_gt m hm)
  rcases List.mem_append.mp h with h | h
  · -- title line
    split at h
    · simp at h
      rw [h]
      exact occ_tagLine_zero m _ _ _ (marker_litSafe_title m hm)
        (marker_headLt m hm) (escapeHtml_ltFree _)
        (marker_occ_titleClose m hm)
    · simp at h
  · -- meta lines
    rcases List.mem_map.mp h with ⟨o, ho, rfl⟩
    exact occ_tagLine_zero m _ _ _ (marker_litSafe_meta m hm)
      (marker_headLt m hm) (buildAttributes_ltFree _ (hmetaK o ho))
      (marker_occ_gt m hm)

theorem marker_litSafe_htmlOpen (m : List Char) (hm : m ∈ markers)
    (hne : m ≠ mHtml) : litSafe m "<html".data = true := by
  rcases marker_cases m hm with rfl | rfl | rfl | rfl | rfl
  · exact absurd rfl hne
  · decide
  · decide
  · decide
  · decide

theorem marker_litSafe_bodyOpen (m : List Char) (hm : m ∈ markers)
    (hne : m ≠ mBodyO) : litSafe m "<body".data = true := by
  rcases marker_cases m hm with rfl | rfl | rfl | rfl | rfl
  · decide
  · decide
  · decide
  · exact absurd rfl hne
  · decide

/-- C6 (amended): for every template configuration whose merged raw
pieces (doctype, custom head fragment, script contents) contain none of
the five skeleton markers and whose attribute keys avoid `<`, and every
body markup containing none of them, the assembled document contains each
skeleton marker (`<html`, `<head>`, `</head>`, `<body`, `</body>`)
exactly once.  All escaped positions (title, attribute values) are safe
unconditionally because escaping removes `<`. -/
theorem C6_fullDocument_marker_counts (t : HTMLTemplate) (body : String)
    (hdoc : markerFree ((mergedTemplateOf t).doctype.getD "").data)
    (hhtmlK : keysLtFree ((mergedTemplateOf t).htmlAttributes.getD []))
    (hbodyK : keysLtFree ((mergedTemplateOf t).bodyAttributes.getD []))
    (hmetaK : ∀ o ∈ ((mergedTemplateOf t).head.getD {}).meta.getD [],
      keysLtFree o)
    (hlinkK : ∀ o ∈ ((mergedTemplateOf t).head.getD {}).links.getD [],
      keysLtFree o)
    (hscriptK : ∀ o ∈ ((mergedTemplateOf t).head.getD {}).scripts.getD [],
      keysLtFree o)
    (hscriptC : ∀ o ∈ ((mergedTemplateOf t).head.getD {}).scripts.getD [],
      markerFree (scriptContentChars o))
    (hcustom : markerFree
      (((mergedTemplateOf t).head.getD {}).customHead.getD "").data)
    (hbody : markerFree body.data) :
    ∀ m ∈ markers, occursCount m (generateFullHTML body t).data = 1 := by
  intro m hm
  have hHead : occursCount m
      (buildHeadSection ((mergedTemplateOf t).head.getD {})) = 0 :=
    headParts_occ_zero m hm _ hmetaK hlinkK hscriptK
      (fun o ho => hscriptC o ho m hm) (hcustom m hm)
  have ht1 : occursCount m ((mergedTemplateOf t).doctype.getD "").data = 0 :=
    hdoc m hm
  have ht2 : occursCount m
      ("<html".data ++ buildAttributes ((mergedTemplateOf t).htmlAttributes.getD []) ++ ['>'])
      = if m = mHtml then 1 else 0 := by
    by_cases hmh : m = mHtml
    · subst hmh
      rw [if_pos rfl]
      have e1 : "<html".data ++ buildAttributes ((mergedTemplateOf t).htmlAttributes.getD []) ++ ['>']
          = mHtml ++ buildAttributes ((mergedTemplateOf t).htmlAttributes.getD []) ++ ['>'] := rfl
      rw [e1]
      exact occ_self_tag mHtml _ _ (by decide) (by decide)
        (buildAttributes_ltFree _ hhtmlK) (by decide)
    · rw [if_neg hmh]
      exact occ_tagLine_zero m _ _ _ (marker_litSafe_htmlOpen m hm hmh)
        (marker_headLt m hm) (buildAttributes_ltFree _ hhtmlK)
        (marker_occ_gt m hm)
  have ht6 : occursCount m
      ("<body".data ++ buildAttributes ((mergedTemplateOf t).bodyAttributes.getD []) ++ ['>'])
      = if m = mBodyO then 1 else 0 := by
    by_cases hmb : m = mBodyO
    · subst hmb
      rw [if_pos rfl]
      have e1 : "<body".data ++ buildAttributes ((mergedTemplateOf t).bodyAttributes.getD []) ++ ['>']
          = mBodyO ++ buildAttributes ((mergedTemplateOf t).bodyAttributes.getD []) ++ ['>'] := rfl
      rw [e1]
      exact occ_self_tag mBodyO _ _ (by decide) (by decide)
        (buildAttributes_ltFree _ hbodyK) (by decide)
    · rw [if_neg hmb]
      exact occ_tagLine_zero m _ _ _ (marker_litSafe_bodyOpen m hm hmb)
        (marker_headLt m hm) (buildAttributes_ltFree _ hbodyK)
        (marker_occ_gt m hm)
  have ht7 : occursCount m body.data = 0 := hbody m hm
  show occursCount m (joinNl
    [ ((mergedTemplateOf t).doctype.getD "").data
    , "<html".data ++ buildAttributes ((mergedTemplateOf t).htmlAttributes.getD []) ++ ['>']
    , "<head>".data
    , buildHeadSection ((mergedTemplateOf t).head.getD {})
    , "</head>".data
    , "<body".data ++ buildAttributes ((mergedTemplateOf t).bodyAttributes.getD []) ++ ['>']
    , body.data
    , "</body>".data
    , "</html>".data ]) = 1
  rw [occursCount_joinNl m _ (marker_no_nl m hm) (marker_ne_nil m hm)]
  simp only [List.map_cons, List.map_nil, List.sum_cons, List.sum_nil]
  rw [ht1, ht2, hHead, ht6, ht7]
  rcases marker_cases m hm with rfl | rfl | rfl | rfl | rfl <;> norm_num <;> decide

instance (s : List Char) : Decidable (markerFree s) := by
  unfold markerFree
  infer_instance

instance (o : AttrObj) : Decidable (keysLtFree o) := by
  unfold keysLtFree
  infer_instance

/-- C6 witness: the amended statement applied to the empty configuration
and a concrete body. -/
theorem C6_witness :
    occursCount mHeadO (generateFullHTML "<p>Hello</p>" {}).data = 1 :=
  C6_fullDocument_marker_counts {} "<p>Hello</p>" (by decide) (by decide)
    (by decide) (by decide) (by decide) (by decide) (by decide) (by decide)
    (by decide) mHeadO (by decide)

set_option maxRecDepth 8192 in
/-- C6 counterexample: the claim as stated quantifies over arbitrary
`customHead` strings, but the custom head fragment is inserted raw, so a
configuration whose `customHead` is `<head></head>` produces a document
with two occurrences of `<head>`. -/
theorem C6_counterexample :
    occursCount mHeadO (generateFullHTML ""
      { head := some { customHead := some "<head></head>" } }).data = 2 := by
  decide

theorem spreadMerge_nil_right (a : AttrObj) : spreadMerge a [] = a := by
  unfold spreadMerge
  simp

/-- C7: template assembly merges a partial configuration field by field
over the complete default configuration: every absent field takes its
default value, each supplied array field among meta/links/scripts
replaces the corresponding default array wholesale, and unsupplied array
fields pass the default arrays through. -/
theorem C7_merge_field_by_field (t : HTMLTemplate) :
    (t.doctype = none →
      (mergedTemplateOf t).doctype = getDefaultTemplate.doctype) ∧
    (t.htmlAttributes = none →
      (mergedTemplateOf t).htmlAttributes = getDefaultTemplate.htmlAttributes) ∧
    (t.bodyAttributes = none →
      (mergedTemplateOf t).bodyAttributes = getDefaultTemplate.bodyAttributes) ∧
    (t.head = none →
      (mergedTemplateOf t).head = getDefaultTemplate.head) ∧
    (headTitleOf t = none →
      headTitleOf (mergedTemplateOf t) = headTitleOf getDefaultTemplate) ∧
    (headCustomOf t = none →
      headCustomOf (mergedTemplateOf t) = headCustomOf getDefaultTemplate) ∧
    (headMetaOf t = none →
      headMetaOf (mergedTemplateOf t) = headMetaOf getDefaultTemplate) ∧
    (∀ l, headMetaOf t = some l → headMetaOf (mergedTemplateOf t) = some l) ∧
    (headLinksOf t = none →
      headLinksOf (mergedTemplateOf t) = headLinksOf getDefaultTemplate) ∧
    (∀ l, headLinksOf t = some l → headLinksOf (mergedTemplateOf t) = some l) ∧
    (headScriptsOf t = none →
      headScriptsOf (mergedTemplateOf t) = headScriptsOf getDefaultTemplate) ∧
    (∀ l, headScriptsOf t = some l →
      headScriptsOf (mergedTemplateOf t) = some l) := by
  refine ⟨?_, ?_, ?_, ?_, ?_, ?_, ?_, ?_, ?_, ?_, ?_, ?_⟩
  · intro h
    simp [mergedTemplateOf, h, jsOrS, truthyS]
  · intro h
    simp [mergedTemplateOf, h, spreadMerge_nil_right, getDefaultTemplate]
  · intro h
    simp [mergedTemplateOf, h, spreadMerge_nil_right, getDefaultTemplate]
  · intro h
    simp [mergedTemplateOf, headTitleOf, headMetaOf, headLinksOf,
      headScriptsOf, headCustomOf, h, jsOrS, jsOrArr, truthyS,
      getDefaultTemplate]
  · intro h
    show jsOrS (headTitleOf t) (headTitleOf getDefaultTemplate) =
      headTitleOf getDefaultTemplate
    rw [h]
    rfl
  · intro h
    show jsOrS (headCustomOf t) (headCustomOf getDefaultTemplate) =
      headCustomOf getDefaultTemplate
    rw [h]
    rfl
  · intro h
    show jsOrArr (headMetaOf t) (headMetaOf getDefaultTemplate) =
      headMetaOf getDefaultTemplate
    rw [h]
    rfl
  · intro l h
    show jsOrArr (headMetaOf t) (headMetaOf getDefaultTemplate) = some l
    rw [h]
    rfl
  · intro h
    show jsOrArr (headLinksOf t) (headLinksOf getDefaultTemplate) =
      headLinksOf getDefaultTemplate
    rw [h]
    rfl
  · intro l h
    show jsOrArr (headLinksOf t) (headLinksOf getDefaultTemplate) = some l
    rw [h]
    rfl
  · intro h
    show jsOrArr (headScriptsOf t) (headScriptsOf getDefaultTemplate) =
      headScriptsOf getDefaultTemplate
    rw [h]
    rfl
  · intro l h
    show jsOrArr (headScriptsOf t) (headScriptsOf getDefaultTemplate) = some l
    rw [h]
    rfl

/-- C7 witness: a configuration supplying only `meta` (as an empty array):
the supplied array replaces the default wholesale while `links` passes the
default through. -/
theorem C7_witness :
    headMetaOf (mergedTemplateOf { head := some { meta := some [] } }) =
      some [] ∧
    headLinksOf (mergedTemplateOf { head := some { meta := some [] } }) =
      headLinksOf getDefaultTemplate :=
  ⟨(C7_merge_field_by_field { head := some { meta := some [] } }).2.2.2.2.2.2.2.1
      [] rfl,
   (C7_merge_field_by_field { head := some { meta := some [] } }).2.2.2.2.2.2.2.2.1
      rfl⟩

/-! ## The validation rules, stated from the specification's wording -/

/-- A meta entry carries at least one of charset, name, property,
http-equiv (a carried field is a truthy one: JS treats an empty string
like an absent field). -/
def metaCarriesOne (o : AttrObj) : Prop :=
  truthyGet o "charset" = true ∨ truthyGet o "name" = true ∨
  truthyGet o "property" = true ∨ truthyGet o "httpEquiv" = true

instance (o : AttrObj) : Decidable (metaCarriesOne o) := by
  unfold metaCarriesOne
  infer_instance

/-- The link's `rel` is exactly the string `stylesheet`. -/
def linkIsStylesheet (o : AttrObj) : Prop :=
  jsGet o "rel" = some (AVal.str "stylesheet")

instance (o : AttrObj) : Decidable (linkIsStylesheet o) := by
  unfold linkIsStylesheet
  infer_instance

/-- A link entry carries `rel`, and a stylesheet link also carries
`href`. -/
def linkOK (o : AttrObj) : Prop :=
  truthyGet o "rel" = true ∧ (linkIsStylesheet o → truthyGet o "href" = true)

instance (o : AttrObj) : Decidable (linkOK o) := by
  unfold linkOK
  infer_instance

/-- The doctype string, when present, mentions "doctype"
case-insensitively. -/
def doctypeRuleOK (t : HTMLTemplate) : Prop :=
  truthyS t.doctype = true →
    jsIncludes (String.toLower (t.doctype.getD "")) "doctype" = true

/-- The title, when present, is at most 200 characters. -/
def titleRuleOK (t : HTMLTemplate) : Prop :=
  truthyS (headTitleOf t) = true → ((headTitleOf t).getD "").length ≤ 200

/-- Every meta entry carries at least one identifying field. -/
def metaRuleOK (t : HTMLTemplate) : Prop :=
  ∀ o ∈ (headMetaOf t).getD [], metaCarriesOne o

/-- Every link entry is well-formed. -/
def linkRuleOK (t : HTMLTemplate) : Prop :=
  ∀ o ∈ (headLinksOf t).getD [], linkOK o

theorem firstMetaError_none_iff (ms : List AttrObj) :
    firstMetaError ms = none ↔ ∀ o ∈ ms, metaCarriesOne o := by
  induction ms with
  | nil => simp [firstMetaError]
  | cons o rest ih =>
    rw [firstMetaError]
    by_cases hc : metaCarriesOne o
    · have hcond : (!(truthyGet o "charset") && !(truthyGet o "name") &&
          !(truthyGet o "property") && !(truthyGet o "httpEquiv")) = false := by
        rcases hc with h | h | h | h <;> simp [h]
      rw [hcond]
      simp only [Bool.false_eq_true, if_false]
      rw [ih]
      constructor
      · intro hall o' ho'
        rcases List.mem_cons.mp ho' with rfl | ho'
        · exact hc
        · exact hall o' ho'
      · intro hall o' ho'
        exact hall o' (by simp [ho'])
    · have hcond : (!(truthyGet o "charset") && !(truthyGet o "name") &&
          !(truthyGet o "property") && !(truthyGet o "httpEquiv")) = true := by
        unfold metaCarriesOne at hc
        push_neg at hc
        simp only [Bool.not_eq_true] at hc
        simp [hc.1, hc.2.1, hc.2.2.1, hc.2.2.2]
      rw [hcond]
      simp only [if_true]
      constructor
      · intro h
        exact absurd h (by simp)
      · intro hall
        exact absurd (hall o (by simp)) hc

theorem isStylesheet_eq (o : AttrObj) :
    (match jsGet o "rel" with
     | some (.str r) => r == "stylesheet"
     | _ => false) = true ↔ linkIsStylesheet o := by
  unfold linkIsStylesheet
  rcases jsGet o "rel" with _ | v
  · simp
  · cases v with
    | str r => simp
    | boolV b => simp

theorem firstLinkError_none_iff (ls : List AttrObj) :
    firstLinkError ls = none ↔ ∀ o ∈ ls, linkOK o := by
  induction ls with
  | nil => simp [firstLinkError]
  | cons o rest ih =>
    rw [firstLinkError]
    by_cases hrel : truthyGet o "rel" = true
    · rw [if_neg (by simp [hrel])]
      by_cases hsty : linkIsStylesheet o
      · by_cases hhref : truthyGet o "href" = true
        · rw [if_neg (by simp [hhref])]
          rw [ih]
          constructor
          · intro hall o' ho'
            rcases List.mem_cons.mp ho' with rfl | ho'
            · exact ⟨hrel, fun _ => hhref⟩
            · exact hall o' ho'
          · intro hall o' ho'
            exact hall o' (by simp [ho'])
        · rw [if_pos (by
            rw [Bool.and_eq_true]
            refine ⟨isStylesheet_eq o |>.mpr hsty, ?_⟩
            simp [Bool.not_eq_true] at hhref ⊢
            exact hhref)]
          constructor
          · intro h
            exact absurd h (by simp)
          · intro hall
            exact absurd ((hall o (by simp)).2 hsty) hhref
      · rw [if_neg (by
          intro hcontra
          rw [Bool.and_eq_true] at hcontra
          exact hsty (isStylesheet_eq o |>.mp hcontra.1))]
        rw [ih]
        constructor
        · intro hall o' ho'
          rcases List.mem_cons.mp ho' with rfl | ho'
          · exact ⟨hrel, fun hs => absurd hs hsty⟩
          · exact hall o' ho'
        · intro hall o' ho'
          exact hall o' (by simp [ho'])
    · rw [if_pos (by simp [Bool.not_eq_true] at hrel ⊢; exact hrel)]
      constructor
      · intro h
        exact absurd h (by simp)
      · intro hall
        exact absurd (hall o (by simp)).1 hrel

theorem firstMetaError_cases (ms : List AttrObj) :
    firstMetaError ms = none ∨ firstMetaError ms =
      some "Meta element must have at least one of: charset, name, property, or http-equiv" := by
  induction ms with
  | nil => exact Or.inl rfl
  | cons o rest ih =>
    rw [firstMetaError]
    split
    · exact Or.inr rfl
    · exact ih

theorem firstLinkError_skip (p : AttrObj) (rest : List AttrObj)
    (hp : linkOK p) : firstLinkError (p :: rest) = firstLinkError rest := by
  rw [firstLinkError]
  rw [if_neg (by simp [hp.1])]
  rw [if_neg (by
    rw [Bool.and_eq_true]
    rintro ⟨hs, hh⟩
    have := hp.2 ((isStylesheet_eq p).mp hs)
    simp [this] at hh)]

theorem firstLinkError_at (pre : List AttrObj) (o : AttrObj)
    (post : List AttrObj) (hpre : ∀ p ∈ pre, linkOK p) :
    (truthyGet o "rel" = false →
      firstLinkError (pre ++ o :: post) =
        some "Link element must have rel attribute") ∧
    (truthyGet o "rel" = true → linkIsStylesheet o →
      truthyGet o "href" = false →
      firstLinkError (pre ++ o :: post) =
        some "Stylesheet link must have href attribute") := by
  induction pre with
  | nil =>
    constructor
    · intro h
      rw [List.nil_append, firstLinkError, if_pos (by simp [h])]
    · intro hrel hsty hhref
      rw [List.nil_append, firstLinkError, if_neg (by simp [hrel]),
        if_pos (by
          rw [Bool.and_eq_true]
          exact ⟨(isStylesheet_eq o).mpr hsty, by simp [hhref]⟩)]
  | cons p pre' ih =>
    have hpOK := hpre p (by simp)
    have ih' := ih (fun q hq => hpre q (by simp [hq]))
    rw [List.cons_append, firstLinkError_skip p _ hpOK]
    exact ih'

/-- C8: `validateTemplate` is a total function (the embedding returns
`Option String`, so it cannot throw), it returns the first violated rule
in the order doctype, title, meta entries, link entries (and within one
link, the `rel` rule before the stylesheet-`href` rule), it returns
`none` when all rules hold, and a violation never blocks document
assembly: the assembled document always contains the head skeleton. -/
theorem C8_validate_first_rule (t : HTMLTemplate) :
    (validateTemplate t = none ↔
      doctypeRuleOK t ∧ titleRuleOK t ∧ metaRuleOK t ∧ linkRuleOK t) ∧
    (¬ doctypeRuleOK t →
      validateTemplate t = some "Invalid doctype format") ∧
    (doctypeRuleOK t → ¬ titleRuleOK t →
      validateTemplate t = some "Title is too long (max 200 characters)") ∧
    (doctypeRuleOK t → titleRuleOK t → ¬ metaRuleOK t →
      validateTemplate t =
        some "Meta element must have at least one of: charset, name, property, or http-equiv") ∧
    (∀ pre o post, doctypeRuleOK t → titleRuleOK t → metaRuleOK t →
      (headLinksOf t).getD [] = pre ++ o :: post →
      (∀ p ∈ pre, linkOK p) →
      (truthyGet o "rel" = false →
        validateTemplate t = some "Link element must have rel attribute") ∧
      (truthyGet o "rel" = true → linkIsStylesheet o →
        truthyGet o "href" = false →
        validateTemplate t =
          some "Stylesheet link must have href attribute")) ∧
    (∀ body, 0 < occursCount mHeadO (generateFullHTML body t).data) := by
  have hd_iff : (truthyS t.doctype &&
      !(jsIncludes (String.toLower (t.doctype.getD "")) "doctype")) = true ↔
      ¬ doctypeRuleOK t := by
    unfold doctypeRuleOK
    rw [Bool.and_eq_true, Bool.not_eq_true', Classical.not_imp]
    simp [Bool.not_eq_true]
  have ht_iff : (truthyS (headTitleOf t) &&
      decide (((headTitleOf t).getD "").length > 200)) = true ↔
      ¬ titleRuleOK t := by
    unfold titleRuleOK
    rw [Bool.and_eq_true, Classical.not_imp, decide_eq_true_eq]
    constructor
    · rintro ⟨x, y⟩
      exact ⟨x, by omega⟩
    · rintro ⟨x, y⟩
      exact ⟨x, by omega⟩
  have hm_eq : (match headMetaOf t with
      | some ms => firstMetaError ms
      | none => none) = none ↔ metaRuleOK t := by
    unfold metaRuleOK
    rcases headMetaOf t with _ | ms
    · simp
    · simpa using firstMetaError_none_iff ms
  have hl_eq : (match headLinksOf t with
      | some ls => firstLinkError ls
      | none => none) = none ↔ linkRuleOK t := by
    unfold linkRuleOK
    rcases headLinksOf t with _ | ls
    · simp
    · simpa using firstLinkError_none_iff ls
  have hval_dc : ¬ doctypeRuleOK t →
      validateTemplate t = some "Invalid doctype format" := by
    intro h
    unfold validateTemplate
    rw [if_pos (hd_iff.mpr h)]
  have hval_tl : doctypeRuleOK t → ¬ titleRuleOK t →
      validateTemplate t = some "Title is too long (max 200 characters)" := by
    intro h1 h2
    unfold validateTemplate
    rw [if_neg (fun hc => (hd_iff.mp hc) h1), if_pos (ht_iff.mpr h2)]
  have hval_rest : doctypeRuleOK t → titleRuleOK t →
      validateTemplate t = (match (match headMetaOf t with
        | some ms => firstMetaError ms
        | none => none) with
        | some e => some e
        | none => match headLinksOf t with
          | some ls => firstLinkError ls
          | none => none) := by
    intro h1 h2
    unfold validateTemplate
    rw [if_neg (fun hc => (hd_iff.mp hc) h1),
      if_neg (fun hc => (ht_iff.mp hc) h2)]
  have hval_meta : doctypeRuleOK t → titleRuleOK t → ¬ metaRuleOK t →
      validateTemplate t =
        some "Meta element must have at least one of: charset, name, property, or http-equiv" := by
    intro h1 h2 h3
    rw [hval_rest h1 h2]
    rcases hmt : headMetaOf t with _ | ms
    · exfalso
      apply h3
      unfold metaRuleOK
      rw [hmt]
      simp
    · dsimp only
      rcases firstMetaError_cases ms with hc | hc
      · exfalso
        apply h3
        unfold metaRuleOK
        rw [hmt]
        simpa using (firstMetaError_none_iff ms).mp hc
      · rw [hc]
  have hval_link : doctypeRuleOK t → titleRuleOK t → metaRuleOK t →
      validateTemplate t = (match headLinksOf t with
        | some ls => firstLinkError ls
        | none => none) := by
    intro h1 h2 h3
    rw [hval_rest h1 h2]
    have hz : (match headMetaOf t with
        | some ms => firstMetaError ms
        | none => none) = none := hm_eq.mpr h3
    rw [hz]
  refine ⟨?_, hval_dc, hval_tl, hval_meta, ?_, ?_⟩
  · constructor
    · intro hnone
      by_cases h1 : doctypeRuleOK t
      · by_cases h2 : titleRuleOK t
        · by_cases h3 : metaRuleOK t
          · refine ⟨h1, h2, h3, ?_⟩
            rw [← hl_eq]
            rw [hval_link h1 h2 h3] at hnone
            exact hnone
          · rw [hval_meta h1 h2 h3] at hnone
            exact absurd hnone (by simp)
        · rw [hval_tl h1 h2] at hnone
          exact absurd hnone (by simp)
      · rw [hval_dc h1] at hnone
        exact absurd hnone (by simp)
    · rintro ⟨h1, h2, h3, h4⟩
      rw [hval_link h1 h2 h3]
      exact hl_eq.mpr h4
  · intro pre o post h1 h2 h3 hsplit hpre
    have hlinks : headLinksOf t = some (pre ++ o :: post) := by
      rcases hls : headLinksOf t with _ | ls
      · rw [hls] at hsplit
        simp at hsplit
      · rw [hls] at hsplit
        simp only [Option.getD_some] at hsplit
        rw [hsplit]
    have hfla := firstLinkError_at pre o post hpre
    constructor
    · intro hrel
      rw [hval_link h1 h2 h3, hlinks]
      simpa using hfla.1 hrel
    · intro hrel hsty hhref
      rw [hval_link h1 h2 h3, hlinks]
      simpa using hfla.2 hrel hsty hhref
  · intro body
    show 0 < occursCount mHeadO (joinNl
      [ ((mergedTemplateOf t).doctype.getD "").data
      , "<html".data ++ buildAttributes ((mergedTemplateOf t).htmlAttributes.getD []) ++ ['>']
      , "<head>".data
      , buildHeadSection ((mergedTemplateOf t).head.getD {})
      , "</head>".data
      , "<body".data ++ buildAttributes ((mergedTemplateOf t).bodyAttributes.getD []) ++ ['>']
      , body.data
      , "</body>".data
      , "</html>".data ])
    rw [occursCount_joinNl mHeadO _ (by decide) (by decide)]
    simp only [List.map_cons, List.map_nil, List.sum_cons, List.sum_nil]
    have hone : occursCount mHeadO ['<', 'h', 'e', 'a', 'd', '>'] = 1 := by
      decide
    omega

/-- A link list whose second entry is a stylesheet without `href`. -/
def c8ExampleLinks : List AttrObj :=
  [[("rel", AVal.str "icon")], [("rel", AVal.str "stylesheet")]]

/-- C8 witness: a configuration violating only the stylesheet rule on its
second link receives exactly that message. -/
theorem C8_witness :
    validateTemplate { head := some { links := some c8ExampleLinks } } =
      some "Stylesheet link must have href attribute" :=
  ((C8_validate_first_rule _).2.2.2.2.1
    [[("rel", AVal.str "icon")]] [("rel", AVal.str "stylesheet")] []
    (by unfold doctypeRuleOK; decide)
    (by unfold titleRuleOK; decide)
    (by unfold metaRuleOK; decide)
    (by decide) (by decide)).2 (by decide) (by decide) (by decide)

/-! ## Editor engine model (`VisualHtmlBuilder`, `ElementTypesHelper`)

JavaScript property bags (`props`) are ordered association lists of
`Value`s.  Array values are aliased in JS; the model makes the aliasing
explicit: an array value is a reference (`vArr r`) into a `Store`, the
engine-wide heap of arrays.  The list block type's `defaultProps.items`
array is allocated once when the registry is built at engine
construction, so it lives at a fixed reference in the initial store;
`\x7b ...defaultProps \x7d` copies the property list but shares the
references, exactly like the JS spread.  DOM bookkeeping (panels, the
iframe) carries no model state and is omitted; `Date.now()` becomes an
explicit `now` argument. -/

/-- A JavaScript property value as used by the block props. -/
inductive Value where
  | vStr (s : String)
  | vNum (n : Int)
  | vBool (b : Bool)
  | vArr (r : Nat)
  | vUndef
deriving DecidableEq

/-- An ordered JS object of property values. -/
abbrev Props := List (String × Value)

/-- The engine-wide heap of JS arrays, addressed by `Value.vArr`
references. -/
abbrev Store := List (List Value)

/-- Property lookup (`props[key]`). -/
def objGet (p : Props) (k : String) : Option Value :=
  (p.find? (fun kv => kv.1 == k)).map (fun kv => kv.2)

/-- Property assignment (`props[key] = v`): updates in place when the key
exists, appends otherwise (JS objects keep insertion order). -/
def objSet (p : Props) (k : String) (v : Value) : Props :=
  if p.any (fun kv => kv.1 == k) then
    p.map (fun kv => if kv.1 == k then (k, v) else kv)
  else p ++ [(k, v)]

/-- `typeof x === 'string' ? x : ''` guard. -/
def strGuard (v : Option Value) : String :=
  match v with
  | some (.vStr s) => s
  | _ => ""

/-- `Number(s)` restricted to the integer fragment used by the editor:
integer strings parse, the empty string is 0, anything else is NaN
(`none`).  Fractional widths are outside the model. -/
def jsNumberInt? (s : String) : Option Int :=
  match s.toInt? with
  | some n => some n
  | none => if s = "" then some 0 else none

/-- `escapeHtml(content).replace(/\n/g, '<br>')` as used by the text
block. -/
def replaceNlBr (s : String) : String :=
  String.mk (s.data.flatMap fun c => if c = '\n' then "<br>".data else [c])

/-- `createTitleElement().render`: clamps the level into 1..6 (defaulting
to 1 for non-numbers), escapes the text. -/
def titleRender (props : Props) (_store : Store) : String :=
  let level : Int := match objGet props "level" with
    | some (.vNum n) => if 1 ≤ n ∧ n ≤ 6 then n else 1
    | _ => 1
  let text := strGuard (objGet props "text")
  "<h" ++ toString level ++ ">" ++ escapeHtml text ++ "</h" ++
    toString level ++ ">"

/-- `createTextElement().render`. -/
def textRender (props : Props) (_store : Store) : String :=
  "<p>" ++ replaceNlBr (escapeHtml (strGuard (objGet props "content"))) ++
    "</p>"

/-- The image block's width/height resolution: a number is kept, a
numeric string is converted, anything else is `undefined`. -/
def dimOf (v : Option Value) : Option Int :=
  match v with
  | some (.vNum n) => some n
  | some (.vStr s) => jsNumberInt? s
  | _ => none

/-- `createImageElement().render`: escaped `src`/`alt`, and a `style`
attribute when a truthy width or height is present (`0` is falsy). -/
def imageRender (props : Props) (_store : Store) : String :=
  let src := strGuard (objGet props "src")
  let alt := strGuard (objGet props "alt")
  let style : List String :=
    (match dimOf (objGet props "width") with
     | some n => if n ≠ 0 then ["width: " ++ toString n ++ "px"] else []
     | none => []) ++
    (match dimOf (objGet props "height") with
     | some n => if n ≠ 0 then ["height: " ++ toString n ++ "px"] else []
     | none => [])
  "<img src=\"" ++ escapeHtml src ++ "\" alt=\"" ++ escapeHtml alt ++ "\"" ++
    (if style.isEmpty then ""
     else " style=\"" ++ String.intercalate "; " style ++ "\"") ++ ">"

/-- `createListElement().render`: dereferences the items array through
the store, keeps only strings, renders `<li>` entries inside `<ul>` or
`<ol>`. -/
def listRender (props : Props) (store : Store) : String :=
  let ordered := match objGet props "ordered" with
    | some (.vBool b) => b
    | _ => false
  let items : List String := match objGet props "items" with
    | some (.vArr r) =>
      (store.getD r []).filterMap fun v =>
        match v with
        | .vStr s => some s
        | _ => none
    | _ => []
  let tag := if ordered then "ol" else "ul"
  "<" ++ tag ++ ">" ++
    String.join (items.map fun i => "<li>" ++ escapeHtml i ++ "</li>") ++
    "</" ++ tag ++ ">"

/-- A block type descriptor.  The claims under verification use
`defaultProps` and `render`; `renderEditor` and the per-block `validate`
play no part in them and are omitted from the embedding. -/
structure ElementType where
  name : String
  icon : String
  defaultProps : Props
  render : Props → Store → String

/-- The store reference of the list type's default items array, allocated
at engine construction. -/
def listItemsRef : Nat := 0

def createTitleElement : ElementType where
  name := "Title"
  icon := "H"
  defaultProps := [("text", .vStr "New Title"), ("level", .vNum 1)]
  render := titleRender

def createTextElement : ElementType where
  name := "Text"
  icon := "T"
  defaultProps := [("content", .vStr "Enter your text here...")]
  render := textRender

def createImageElement : ElementType where
  name := "Image"
  icon := "🖼"
  defaultProps :=
    [("src", .vStr "https://raw.githubusercontent.com/naoki85/visual-html-builder/refs/heads/main/src/typescript.svg"),
     ("alt", .vStr "Sample image"),
     ("width", .vUndef), ("height", .vUndef)]
  render := imageRender

def createListElement : ElementType where
  name := "List"
  icon := "•"
  defaultProps := [("items", .vArr listItemsRef), ("ordered", .vBool false)]
  render := listRender

/-- `ElementTypesHelper.getAllElementTypes`. -/
def getAllElementTypes : List (String × ElementType) :=
  [("title", createTitleElement), ("text", createTextElement),
   ("image", createImageElement), ("list", createListElement)]

/-- The heap right after the registry is built: the single default items
array of the list type. -/
def initialStore : Store :=
  [[.vStr "Item 1", .vStr "Item 2", .vStr "Item 3"]]

/-- A block instance. -/
structure EditorElement where
  id : Nat
  type : String
  props : Props
deriving DecidableEq

/-- The mutable state of one `VisualHtmlBuilder` instance.  The selected
element reference is tracked by its id. -/
structure EngineState where
  elements : List EditorElement
  selectedId : Option Nat
  elementTypes : List (String × ElementType)
  elementCounter : Nat
  store : Store

/-- The state right after construction with no initial content. -/
def initState : EngineState where
  elements := []
  selectedId := none
  elementTypes := getAllElementTypes
  elementCounter := 0
  store := initialStore

/-- `this.elementTypes[k]`. -/
def lookupType (reg : List (String × ElementType)) (k : String) :
    Option ElementType :=
  (reg.find? (fun kv => kv.1 == k)).map (fun kv => kv.2)

/-- `selectElement`: sets the selection to the found element, or clears
it when the id is stale. -/
def selectElement (st : EngineState) (i : Nat) : EngineState :=
  { st with selectedId :=
      if st.elements.any (fun e => e.id == i) then some i else none }

/-- `addElement`: throws on an unknown type; otherwise appends a fresh
instance whose id is `Date.now() + ++this.elementCounter` and whose props
are the shallow copy `\x7b ...defaultProps \x7d`, then selects it. -/
def addElement (st : EngineState) (now : Nat) (ty : String) :
    Except String EngineState :=
  match lookupType st.elementTypes ty with
  | none => .error ("Unknown element type: " ++ ty)
  | some et =>
    let newId := now + (st.elementCounter + 1)
    let el : EditorElement := { id := newId, type := ty, props := et.defaultProps }
    .ok (selectElement
      { st with elements := st.elements ++ [el],
                elementCounter := st.elementCounter + 1 } newId)

/-- Mutation of the single found element object (`find` returns the first
match, and JS mutates that object in place). -/
def updateFirst (l : List EditorElement) (i : Nat)
    (f : EditorElement → EditorElement) : List EditorElement :=
  match l with
  | [] => []
  | e :: rest => if e.id == i then f e :: rest else e :: updateFirst rest i f

/-- `updateProperty`: no-op without a selection, otherwise mutates the
selected instance's props in place. -/
def updateProperty (st : EngineState) (k : String) (v : Value) :
    EngineState :=
  match st.selectedId with
  | none => st
  | some i =>
    { st with elements :=
        updateFirst st.elements i fun e =>
          { e with props := objSet e.props k v } }

/-- `deleteElement`: filters the id out and clears the selection if it
pointed at the removed instance. -/
def deleteElement (st : EngineState) (i : Nat) : EngineState :=
  { st with
    elements := st.elements.filter (fun e => !(e.id == i)),
    selectedId := if st.selectedId == some i then none else st.selectedId }

/-- The `onDrop` reorder callback: rebuilds the array in the order of the
given id sequence, dropping unknown ids; the selection is not touched. -/
def onDropReorder (st : EngineState) (order : List Nat) : EngineState :=
  { st with elements :=
      order.filterMap (fun i => st.elements.find? (fun e => e.id == i)) }

/-- The items-array reference of the selected list instance, when the
selection is a list block. -/
def selectedListItemsRef (st : EngineState) : Option Nat :=
  match st.selectedId with
  | none => none
  | some i =>
    match st.elements.find? (fun e => e.id == i) with
    | none => none
    | some e =>
      if e.type == "list" then
        match objGet e.props "items" with
        | some (.vArr r) => some r
        | _ => none
      else none

def storeSet (s : Store) (r : Nat) (a : List Value) : Store := s.set r a

/-- `addListItem`: pushes onto the selected list's items array (a heap
mutation visible through every alias of that array). -/
def addListItem (st : EngineState) : EngineState :=
  match selectedListItemsRef st with
  | some r =>
    { st with store := storeSet st.store r (st.store.getD r [] ++ [.vStr "New item"]) }
  | none => st

/-- `updateListItem`: writes the indexed cell of the selected list's
items array (in-range writes; JS would extend past the end). -/
def updateListItem (st : EngineState) (idx : Nat) (v : String) :
    EngineState :=
  match selectedListItemsRef st with
  | some r =>
    { st with store := storeSet st.store r ((st.store.getD r []).set idx (.vStr v)) }
  | none => st

/-- `removeListItem` (`splice(index, 1)`). -/
def removeListItem (st : EngineState) (idx : Nat) : EngineState :=
  match selectedListItemsRef st with
  | some r =>
    { st with store := storeSet st.store r ((st.store.getD r []).eraseIdx idx) }
  | none => st

/-- `Array.prototype.join('\n')` over rendered strings. -/
def joinStringsNl : List String → String
  | [] => ""
  | [r] => r
  | r :: rest => r ++ "\n" ++ joinStringsNl rest

/-- `generateHTML`: empty string on an empty document, otherwise the
renders of all instances in document order joined by newlines (unknown
types render as the empty string). -/
def generateHTML (st : EngineState) : String :=
  if st.elements.isEmpty then ""
  else joinStringsNl (st.elements.map fun e =>
    match lookupType st.elementTypes e.type with
    | some et => et.render e.props st.store
    | none => "")

/-- The public operations, for stating invariants over whole runs. -/
inductive Op where
  | add (now : Nat) (ty : String)
  | select (i : Nat)
  | delete (i : Nat)
  | reorder (order : List Nat)
  | update (k : String) (v : Value)
  | updItem (idx : Nat) (v : String)
  | addItem
  | remItem (idx : Nat)

/-- One UI event: a thrown `addElement` leaves the state unchanged (the
exception propagates before any mutation). -/
def step (st : EngineState) : Op → EngineState
  | .add now ty =>
    match addElement st now ty with
    | .ok st2 => st2
    | .error _ => st
  | .select i => selectElement st i
  | .delete i => deleteElement st i
  | .reorder order => onDropReorder st order
  | .update k v => updateProperty st k v
  | .updItem idx v => updateListItem st idx v
  | .addItem => addListItem st
  | .remItem idx => removeListItem st idx

def runOps (st : EngineState) : List Op → EngineState
  | [] => st
  | op :: rest => runOps (step st op) rest

/-- The timestamps passed to the add operations of a run, in order. -/
def opTimes : List Op → List Nat
  | [] => []
  | .add now _ :: rest => now :: opTimes rest
  | _ :: rest => opTimes rest

/-- The ids assigned by the successful adds of a run, in order. -/
def assignedIds (st : EngineState) : List Op → List Nat
  | [] => []
  | .add now ty :: rest =>
    match addElement st now ty with
    | .ok st2 => (now + (st.elementCounter + 1)) :: assignedIds st2 rest
    | .error _ => assignedIds st rest
  | op :: rest => assignedIds (step st op) rest

/-- The selection invariant: a set selection references a present
instance. -/
def selectionOKb (st : EngineState) : Bool :=
  match st.selectedId with
  | none => true
  | some i => st.elements.any (fun e => e.id == i)

def selectionOK (st : EngineState) : Prop := selectionOKb st = true

/-- The registry's current default items array of the list block type,
dereferenced through the engine heap. -/
def registryListItems (st : EngineState) : List Value :=
  match lookupType st.elementTypes "list" with
  | some et =>
    match objGet et.defaultProps "items" with
    | some (.vArr r) => st.store.getD r []
    | _ => []
  | none => []

/-- C1 (amended): for every registered type key, `addBlock` appends
exactly one new instance whose props list is a top-level copy of the
descriptor's `defaultProps`; top-level property assignments afterwards
touch neither the registry nor the heap.  Nested array values, however,
are shared by reference (see the counterexample), so the copy is shallow,
not by-value. -/
theorem C1_addBlock_appends_shallow_copy (st : EngineState) (now : Nat)
    (ty : String) (et : ElementType)
    (hreg : lookupType st.elementTypes ty = some et) :
    ∃ st2, addElement st now ty = .ok st2 ∧
      st2.elements = st.elements ++
        [⟨now + (st.elementCounter + 1), ty, et.defaultProps⟩] ∧
      st2.elements.length = st.elements.length + 1 ∧
      st2.elementTypes = st.elementTypes ∧
      st2.store = st.store ∧
      (∀ k v, (updateProperty st2 k v).elementTypes = st.elementTypes ∧
              (updateProperty st2 k v).store = st.store) := by
  refine ⟨selectElement
    { st with
      elements := st.elements ++
        [⟨now + (st.elementCounter + 1), ty, et.defaultProps⟩],
      elementCounter := st.elementCounter + 1 }
    (now + (st.elementCounter + 1)), ?_, ?_, ?_, ?_, ?_, ?_⟩
  · unfold addElement
    rw [hreg]
  · rfl
  · simp [selectElement]
  · rfl
  · rfl
  · intro k v
    constructor
    · unfold updateProperty
      split <;> rfl
    · unfold updateProperty
      split <;> rfl

/-- C1 witness: the amended statement at the initial state and the title
type. -/
theorem C1_witness :
    ∃ st2, addElement initState 50 "title" = .ok st2 ∧
      st2.elements = initState.elements ++
        [⟨50 + (initState.elementCounter + 1), "title",
          createTitleElement.defaultProps⟩] ∧
      st2.elements.length = initState.elements.length + 1 ∧
      st2.elementTypes = initState.elementTypes ∧
      st2.store = initState.store ∧
      (∀ k v, (updateProperty st2 k v).elementTypes = initState.elementTypes ∧
              (updateProperty st2 k v).store = initState.store) :=
  C1_addBlock_appends_shallow_copy initState 50 "title" createTitleElement rfl

/-- The run refuting the by-value part of C1: add a list block (whose
props are the shallow copy of the list defaults) and push one item onto
the new instance's items array. -/
def c1Run : EngineState := step (step initState (.add 100 "list")) .addItem

/-- C1 counterexample: mutating the new list instance's nested items
array mutates the registry's `defaultProps` — the copy is not by-value. -/
theorem C1_counterexample :
    registryListItems initState =
      [.vStr "Item 1", .vStr "Item 2", .vStr "Item 3"] ∧
    registryListItems c1Run =
      [.vStr "Item 1", .vStr "Item 2", .vStr "Item 3", .vStr "New item"] ∧
    registryListItems c1Run ≠ registryListItems initState :=
  ⟨by decide, by decide, by decide⟩

instance (st : EngineState) : Decidable (selectionOK st) := by
  unfold selectionOK
  infer_instance

theorem selectElement_selectionOK (st : EngineState) (i : Nat) :
    selectionOK (selectElement st i) := by
  unfold selectionOK selectionOKb selectElement
  by_cases h : st.elements.any (fun e => e.id == i)
  · simp only [if_pos h]
    exact h
  · simp only [if_neg h]

theorem updateFirst_any_id (l : List EditorElement) (i j : Nat)
    (f : EditorElement → EditorElement) (hf : ∀ e, (f e).id = e.id) :
    (updateFirst l i f).any (fun e => e.id == j) =
      l.any (fun e => e.id == j) := by
  induction l with
  | nil => rfl
  | cons e rest ih =>
    rw [updateFirst]
    by_cases h : e.id == i
    · simp only [if_pos h, List.any_cons, hf e]
    · simp only [if_neg h, List.any_cons, ih]

/-- C2 (amended): the selection invariant — a set selection references a
present instance — is preserved by add, select, delete, property updates
and the list-item operations, and by a reorder whose id sequence contains
the selected id.  A reorder omitting the selected id does NOT clear the
selection (the claim fails there; see the counterexample). -/
theorem C2_selection_invariant (st : EngineState) (h : selectionOK st) :
    (∀ now ty, selectionOK (step st (.add now ty))) ∧
    (∀ i, selectionOK (step st (.select i))) ∧
    (∀ i, selectionOK (step st (.delete i))) ∧
    (∀ k v, selectionOK (step st (.update k v))) ∧
    (∀ idx v, selectionOK (step st (.updItem idx v))) ∧
    selectionOK (step st .addItem) ∧
    (∀ idx, selectionOK (step st (.remItem idx))) ∧
    (∀ order, (∀ i, st.selectedId = some i → i ∈ order) →
      selectionOK (step st (.reorder order))) := by
  refine ⟨?_, ?_, ?_, ?_, ?_, ?_, ?_, ?_⟩
  · intro now ty
    show selectionOK (match addElement st now ty with
      | .ok st2 => st2
      | .error _ => st)
    rcases hadd : addElement st now ty with e | st2
    · exact h
    · unfold addElement at hadd
      rcases hl : lookupType st.elementTypes ty with _ | et <;> rw [hl] at hadd
      · simp at hadd
      · simp only [Except.ok.injEq] at hadd
        rw [← hadd]
        exact selectElement_selectionOK _ _
  · intro i
    exact selectElement_selectionOK st i
  · intro i
    show selectionOK (deleteElement st i)
    unfold selectionOK selectionOKb at h
    unfold selectionOK selectionOKb deleteElement
    rcases hsel : st.selectedId with _ | j <;> rw [hsel] at h
    · simp [hsel]
    · cases hb : ((some j : Option Nat) == some i) with
      | true => simp [hsel, hb]
      | false =>
        simp only [hsel]
        rw [if_neg (by simp [hb])]
        show (st.elements.filter (fun e => !(e.id == i))).any
          (fun e => e.id == j) = true
        rcases List.any_eq_true.mp h with ⟨e, he, hej⟩
        have hj : e.id = j := by simpa using hej
        have hne : j ≠ i := by
          intro hc
          subst hc
          simp at hb
        apply List.any_eq_true.mpr
        refine ⟨e, List.mem_filter.mpr ⟨he, by simp [hj, hne]⟩, hej⟩
  · intro k v
    show selectionOK (updateProperty st k v)
    unfold selectionOK selectionOKb at h
    unfold selectionOK selectionOKb updateProperty
    rcases hsel : st.selectedId with _ | j <;> rw [hsel] at h
    · simp [hsel]
    · simp only [hsel]
      show (updateFirst st.elements j
        (fun e => { e with props := objSet e.props k v })).any
        (fun e => e.id == j) = true
      rw [updateFirst_any_id st.elements j j
        (fun e => { e with props := objSet e.props k v }) (fun e => rfl)]
      exact h
  · intro idx v
    show selectionOK (updateListItem st idx v)
    unfold selectionOK selectionOKb at h
    unfold selectionOK selectionOKb updateListItem
    rcases hr : selectedListItemsRef st with _ | r
    · exact h
    · exact h
  · show selectionOK (addListItem st)
    unfold selectionOK selectionOKb at h
    unfold selectionOK selectionOKb addListItem
    rcases hr : selectedListItemsRef st with _ | r
    · exact h
    · exact h
  · intro idx
    show selectionOK (removeListItem st idx)
    unfold selectionOK selectionOKb at h
    unfold selectionOK selectionOKb removeListItem
    rcases hr : selectedListItemsRef st with _ | r
    · exact h
    · exact h
  · intro order hord
    show selectionOK (onDropReorder st order)
    unfold selectionOK selectionOKb at h
    unfold selectionOK selectionOKb onDropReorder
    cases hsel : st.selectedId with
    | none => simp [hsel]
    | some j =>
      have h2 : st.elements.any (fun e => e.id == j) = true := by
        rw [hsel] at h
        simpa using h
      simp only [hsel]
      show (order.filterMap
        (fun i => st.elements.find? (fun e => e.id == i))).any
        (fun e => e.id == j) = true
      rcases List.any_eq_true.mp h2 with ⟨e, he, hej⟩
      have hfind : ∃ e2, st.elements.find? (fun e2 => e2.id == j) = some e2 := by
        have : (st.elements.find? (fun e2 => e2.id == j)).isSome := by
          rw [List.find?_isSome]
          exact ⟨e, he, hej⟩
        exact Option.isSome_iff_exists.mp this
      rcases hfind with ⟨e2, he2⟩
      have hmem : e2 ∈ order.filterMap
          (fun i => st.elements.find? (fun e => e.id == i)) :=
        List.mem_filterMap.mpr ⟨j, hord j hsel, he2⟩
      have hpe2 := List.find?_some he2
      exact List.any_eq_true.mpr ⟨e2, hmem, hpe2⟩

/-- A one-element document with the element selected. -/
def c2State : EngineState := step initState (.add 100 "title")

/-- C2 counterexample: `onDrop` with an id sequence omitting the selected
id removes the instance but leaves the stale selection in place, breaking
the invariant the claim asserts. -/
theorem C2_counterexample :
    selectionOK c2State ∧
    (step c2State (.reorder [])).selectedId = some 101 ∧
    (step c2State (.reorder [])).elements = [] ∧
    ¬ selectionOK (step c2State (.reorder [])) :=
  ⟨by decide, by decide, by decide, by decide⟩

/-- C2 witness: the amended statement applied to a concrete state —
deleting the selected instance keeps the invariant. -/
theorem C2_witness : selectionOK (step c2State (.delete 101)) :=
  (C2_selection_invariant c2State (by decide)).2.2.1 101

/-- C3: the reorder operation yields exactly the given id sequence
restricted to ids present in the document, in sequence order; when the
sequence is a permutation of the present ids, the id sequence round-trips
exactly; foreign ids are dropped without corrupting the model. -/
theorem C3_reorder_restricts (st : EngineState) (order : List Nat) :
    ((onDropReorder st order).elements.map (fun e => e.id) =
      order.filter (fun i => st.elements.any (fun e => e.id == i))) ∧
    (order.Perm (st.elements.map fun e => e.id) →
      (onDropReorder st order).elements.map (fun e => e.id) = order) := by
  have h1 : (onDropReorder st order).elements.map (fun e => e.id) =
      order.filter (fun i => st.elements.any (fun e => e.id == i)) := by
    unfold onDropReorder
    induction order with
    | nil => rfl
    | cons i rest ih =>
      rw [List.filterMap_cons, List.filter_cons]
      rcases hf : st.elements.find? (fun e => e.id == i) with _ | e
      · have hany : st.elements.any (fun e => e.id == i) = false := by
          rw [← Bool.not_eq_true, List.any_eq_true]
          rintro ⟨e, he, hei⟩
          have := List.find?_eq_none.mp hf e he
          exact this hei
        rw [hf, hany]
        simpa using ih
      · have hp := List.find?_some hf
        have hany : st.elements.any (fun e => e.id == i) = true :=
          List.any_eq_true.mpr ⟨e, List.mem_of_find?_eq_some hf, hp⟩
        have hei : e.id = i := by simpa using hp
        rw [hf, hany]
        simpa [hei] using ih
  refine ⟨h1, ?_⟩
  intro hperm
  rw [h1]
  apply List.filter_eq_self.mpr
  intro i hi
  have hmem : i ∈ st.elements.map (fun e => e.id) := hperm.subset hi
  rcases List.mem_map.mp hmem with ⟨e, he, hei⟩
  exact List.any_eq_true.mpr ⟨e, he, by simp [hei]⟩

/-- A two-element document: a title block (id 1) then a text block
(id 2). -/
def c3State : EngineState := step (step initState (.add 0 "title")) (.add 0 "text")

/-- C3 witness: a permutation of the present ids round-trips exactly. -/
theorem C3_witness :
    (onDropReorder c3State [2, 1]).elements.map (fun e => e.id) = [2, 1] :=
  (C3_reorder_restricts c3State [2, 1]).2 (by decide)

/-- The markup one instance contributes to the export (unknown types
contribute the empty string). -/
def renderOf (st : EngineState) (e : EditorElement) : String :=
  match lookupType st.elementTypes e.type with
  | some et => et.render e.props st.store
  | none => ""

/-- The export shape the amended claim describes: the renders in document
order with exactly one newline inserted between consecutive instances
(written through `intersperse`, independently of the implementation's
join). -/
def specConcatNl (rs : List String) : String :=
  (List.intersperse "\n" rs).foldr (fun a b => a ++ b) ""

theorem joinStringsNl_eq_specConcatNl (rs : List String) :
    joinStringsNl rs = specConcatNl rs := by
  induction rs with
  | nil => rfl
  | cons r rest ih =>
    cases rest with
    | nil =>
      show r = (List.intersperse "\n" [r]).foldr (fun a b => a ++ b) ""
      simp [List.intersperse]
    | cons s t =>
      show r ++ "\n" ++ joinStringsNl (s :: t) =
        (List.intersperse "\n" (r :: s :: t)).foldr (fun a b => a ++ b) ""
      rw [List.intersperse_cons_cons]
      show r ++ "\n" ++ joinStringsNl (s :: t) =
        r ++ ("\n" ++ (List.intersperse "\n" (s :: t)).foldr (fun a b => a ++ b) "")
      rw [ih]
      unfold specConcatNl
      rw [String.append_assoc]

/-- C5 (amended): `exportBody()` returns the empty string on an empty
document, and on a non-empty document returns the renders of the
instances in document order joined with exactly one newline between
consecutive instances (not the bare concatenation the claim states — see
the counterexample). -/
theorem C5_exportBody_join (st : EngineState) :
    (st.elements = [] → generateHTML st = "") ∧
    generateHTML st = specConcatNl (st.elements.map (renderOf st)) := by
  constructor
  · intro h
    unfold generateHTML
    rw [if_pos (by simp [h])]
  · unfold generateHTML
    by_cases h : st.elements.isEmpty
    · rw [if_pos h]
      rw [List.isEmpty_iff] at h
      rw [h]
      rfl
    · rw [if_neg h]
      exact joinStringsNl_eq_specConcatNl _

/-- Two title blocks, both with the default props. -/
def c5State : EngineState :=
  step (step initState (.add 0 "title")) (.add 0 "title")

/-- C5 witness: the amended statement evaluated on the two-title
document. -/
theorem C5_witness :
    generateHTML c5State = specConcatNl (c5State.elements.map (renderOf c5State)) :=
  (C5_exportBody_join c5State).2

/-- C5 counterexample: on a two-element document the export inserts a
newline between the instances' markup, so it is not the bare
concatenation of the renders. -/
theorem C5_counterexample :
    generateHTML c5State = "<h1>New Title</h1>\n<h1>New Title</h1>" ∧
    renderOf c5State ((c5State.elements.getD 0 ⟨0, "", []⟩)) = "<h1>New Title</h1>" ∧
    renderOf c5State ((c5State.elements.getD 1 ⟨0, "", []⟩)) = "<h1>New Title</h1>" ∧
    generateHTML c5State ≠ "<h1>New Title</h1>" ++ "<h1>New Title</h1>" :=
  ⟨by decide, by decide, by decide, by decide⟩

theorem addElement_ok_shape (st : EngineState) (now : Nat) (ty : String)
    (st2 : EngineState) (h : addElement st now ty = .ok st2) :
    st2.elementCounter = st.elementCounter + 1 ∧
    ∃ et, lookupType st.elementTypes ty = some et ∧
      st2.elements = st.elements ++
        [⟨now + (st.elementCounter + 1), ty, et.defaultProps⟩] := by
  unfold addElement at h
  rcases hl : lookupType st.elementTypes ty with _ | et <;> rw [hl] at h
  · simp at h
  · simp only [Except.ok.injEq] at h
    rw [← h]
    exact ⟨rfl, et, rfl, rfl⟩

theorem counter_mono (st : EngineState) (op : Op) :
    st.elementCounter ≤ (step st op).elementCounter := by
  cases op with
  | add now ty =>
    show st.elementCounter ≤ (match addElement st now ty with
      | .ok st2 => st2
      | .error _ => st).elementCounter
    rcases hadd : addElement st now ty with e | st2
    · exact Nat.le_refl _
    · rw [(addElement_ok_shape st now ty st2 hadd).1]
      exact Nat.le_succ _
  | select i => exact Nat.le_refl _
  | delete i => exact Nat.le_refl _
  | reorder order => exact Nat.le_refl _
  | update k v =>
    show st.elementCounter ≤ (updateProperty st k v).elementCounter
    unfold updateProperty
    rcases st.selectedId with _ | j <;> exact Nat.le_refl _
  | updItem idx v =>
    show st.elementCounter ≤ (updateListItem st idx v).elementCounter
    unfold updateListItem
    rcases selectedListItemsRef st with _ | r <;> exact Nat.le_refl _
  | addItem =>
    show st.elementCounter ≤ (addListItem st).elementCounter
    unfold addListItem
    rcases selectedListItemsRef st with _ | r <;> exact Nat.le_refl _
  | remItem idx =>
    show st.elementCounter ≤ (removeListItem st idx).elementCounter
    unfold removeListItem
    rcases selectedListItemsRef st with _ | r <;> exact Nat.le_refl _

/-- Every id assigned during a run whose add timestamps stay at or above
`t0` (and are non-decreasing) exceeds `t0 + counter`. -/
theorem assigned_lb (ops : List Op) : ∀ (st : EngineState) (t0 : Nat),
    (t0 :: opTimes ops).Chain' (· ≤ ·) →
    ∀ a ∈ assignedIds st ops, t0 + st.elementCounter + 1 ≤ a := by
  induction ops with
  | nil =>
    intro st t0 hch a ha
    simp [assignedIds] at ha
  | cons op rest ih =>
    intro st t0 hch a ha
    cases op with
    | add now ty =>
      have htimes : opTimes (Op.add now ty :: rest) = now :: opTimes rest := rfl
      rw [htimes] at hch
      have ht0 : t0 ≤ now := List.chain'_cons.mp hch |>.1
      have hch2 : (now :: opTimes rest).Chain' (· ≤ ·) :=
        List.chain'_cons.mp hch |>.2
      rw [assignedIds] at ha
      rcases hadd : addElement st now ty with e | st2 <;> rw [hadd] at ha
      · have := ih st now hch2 a ha
        omega
      · rcases List.mem_cons.mp ha with rfl | ha2
        · omega
        · have hc2 := (addElement_ok_shape st now ty st2 hadd).1
          have := ih st2 now hch2 a ha2
          omega
    | select i =>
      have := ih (step st (.select i)) t0 hch a ha
      have hc := counter_mono st (.select i)
      omega
    | delete i =>
      have := ih (step st (.delete i)) t0 hch a ha
      have hc := counter_mono st (.delete i)
      omega
    | reorder order =>
      have := ih (step st (.reorder order)) t0 hch a ha
      have hc := counter_mono st (.reorder order)
      omega
    | update k v =>
      have := ih (step st (.update k v)) t0 hch a ha
      have hc := counter_mono st (.update k v)
      omega
    | updItem idx v =>
      have := ih (step st (.updItem idx v)) t0 hch a ha
      have hc := counter_mono st (.updItem idx v)
      omega
    | addItem =>
      have := ih (step st .addItem) t0 hch a ha
      have hc := counter_mono st .addItem
      omega
    | remItem idx =>
      have := ih (step st (.remItem idx)) t0 hch a ha
      have hc := counter_mono st (.remItem idx)
      omega

theorem updateFirst_mem_id (l : List EditorElement) (i : Nat)
    (f : EditorElement → EditorElement) (hf : ∀ e, (f e).id = e.id)
    (e : EditorElement) (he : e ∈ updateFirst l i f) :
    e.id ∈ l.map (fun e2 => e2.id) := by
  induction l with
  | nil => simp [updateFirst] at he
  | cons x rest ih =>
    rw [updateFirst] at he
    by_cases hx : x.id == i
    · rw [if_pos hx] at he
      rcases List.mem_cons.mp he with rfl | he2
      · simp [hf x]
      · simp only [List.map_cons, List.mem_cons]
        exact Or.inr (List.mem_map.mpr ⟨e, he2, rfl⟩)
    · rw [if_neg hx] at he
      rcases List.mem_cons.mp he with rfl | he2
      · simp
      · simp only [List.map_cons, List.mem_cons]
        exact Or.inr (ih he2)

/-- C9: over any run of operations whose add timestamps are
non-decreasing, the ids assigned by addBlock are strictly increasing,
hence pairwise distinct; and no operation changes an existing instance's
id — every instance present after a step carries an id that was present
before or was the id just assigned by that step. -/
theorem C9_assigned_ids_distinct (st : EngineState) (ops : List Op)
    (hmono : (opTimes ops).Chain' (· ≤ ·)) :
    (assignedIds st ops).Chain' (· < ·) ∧
    (assignedIds st ops).Pairwise (· ≠ ·) ∧
    (∀ op e, e ∈ (step st op).elements →
      e.id ∈ st.elements.map (fun e2 => e2.id) ++ assignedIds st [op]) := by
  have hchain : ∀ (ops2 : List Op) (st2 : EngineState),
      (opTimes ops2).Chain' (· ≤ ·) →
      (assignedIds st2 ops2).Chain' (· < ·) := by
    intro ops2
    induction ops2 with
    | nil =>
      intro st2 hch
      simp [assignedIds]
    | cons op rest ih =>
      intro st2 hch
      cases op with
      | add now ty =>
        have htimes : opTimes (Op.add now ty :: rest) = now :: opTimes rest := rfl
        rw [htimes] at hch
        rw [assignedIds]
        rcases hadd : addElement st2 now ty with e | st3
        · exact ih st2 (List.chain'_cons'.mp hch).2
        · rw [List.chain'_cons']
          refine ⟨?_, ih st3 (List.chain'_cons'.mp hch).2⟩
          intro b hb
          have hbmem : b ∈ assignedIds st3 rest := List.mem_of_mem_head? hb
          have hb_lb := assigned_lb rest st3 now
            (by
              have h2 := (List.chain'_cons'.mp hch).2
              rcases hot : opTimes rest with _ | ⟨t1, ts⟩
              · simp
              · rw [hot] at h2
                rw [List.chain'_cons]
                refine ⟨?_, h2⟩
                have := (List.chain'_cons'.mp hch).1 t1 (by rw [hot]; rfl)
                exact this) b hbmem
          have hc3 := (addElement_ok_shape st2 now ty st3 hadd).1
          omega
      | select i => exact ih _ hch
      | delete i => exact ih _ hch
      | reorder order => exact ih _ hch
      | update k v => exact ih _ hch
      | updItem idx v => exact ih _ hch
      | addItem => exact ih _ hch
      | remItem idx => exact ih _ hch
  have hch := hchain ops st hmono
  have hpw : (assignedIds st ops).Pairwise (· < ·) :=
    List.chain'_iff_pairwise.mp hch
  refine ⟨hch, hpw.imp (fun hab => Nat.ne_of_lt hab), ?_⟩
  intro op e he
  cases op with
  | add now ty =>
    rw [step] at he
    rcases hadd : addElement st now ty with err | st2 <;> rw [hadd] at he
    · exact List.mem_append.mpr (Or.inl (List.mem_map.mpr ⟨e, he, rfl⟩))
    · rcases (addElement_ok_shape st now ty st2 hadd).2 with ⟨et, hreg, hels⟩
      rw [hels] at he
      rcases List.mem_append.mp he with h1 | h1
      · exact List.mem_append.mpr (Or.inl (List.mem_map.mpr ⟨e, h1, rfl⟩))
      · apply List.mem_append.mpr
        right
        show e.id ∈ assignedIds st [Op.add now ty]
        rw [assignedIds, hadd]
        simp at h1
        rw [h1]
        simp [assignedIds]
  | select i =>
    exact List.mem_append.mpr (Or.inl (List.mem_map.mpr ⟨e, he, rfl⟩))
  | delete i =>
    have : e ∈ st.elements := (List.mem_filter.mp he).1
    exact List.mem_append.mpr (Or.inl (List.mem_map.mpr ⟨e, this, rfl⟩))
  | reorder order =>
    rcases List.mem_filterMap.mp he with ⟨i, _, hfind⟩
    have : e ∈ st.elements := List.mem_of_find?_eq_some hfind
    exact List.mem_append.mpr (Or.inl (List.mem_map.mpr ⟨e, this, rfl⟩))
  | update k v =>
    rw [step] at he
    unfold updateProperty at he
    rcases hsel : st.selectedId with _ | j <;> rw [hsel] at he
    · exact List.mem_append.mpr (Or.inl (List.mem_map.mpr ⟨e, he, rfl⟩))
    · apply List.mem_append.mpr
      left
      exact updateFirst_mem_id st.elements j
        (fun e2 => { e2 with props := objSet e2.props k v })
        (fun e2 => rfl) e he
  | updItem idx v =>
    rw [step] at he
    unfold updateListItem at he
    rcases hr : selectedListItemsRef st with _ | r <;> rw [hr] at he <;>
      exact List.mem_append.mpr (Or.inl (List.mem_map.mpr ⟨e, he, rfl⟩))
  | addItem =>
    rw [step] at he
    unfold addListItem at he
    rcases hr : selectedListItemsRef st with _ | r <;> rw [hr] at he <;>
      exact List.mem_append.mpr (Or.inl (List.mem_map.mpr ⟨e, he, rfl⟩))
  | remItem idx =>
    rw [step] at he
    unfold removeListItem at he
    rcases hr : selectedListItemsRef st with _ | r <;> rw [hr] at he <;>
      exact List.mem_append.mpr (Or.inl (List.mem_map.mpr ⟨e, he, rfl⟩))

/-- C9 witness: a run with equal timestamps still assigns strictly
increasing, pairwise distinct ids. -/
theorem C9_witness :
    (assignedIds initState
      [Op.add 5 "title", Op.add 5 "text", Op.add 5 "image"]).Pairwise (· ≠ ·) :=
  (C9_assigned_ids_distinct initState
    [Op.add 5 "title", Op.add 5 "text", Op.add 5 "image"]
    (by
      show List.Chain' (· ≤ ·) [5, 5, 5]
      exact List.chain'_cons.mpr ⟨Nat.le_refl 5,
        List.chain'_cons.mpr ⟨Nat.le_refl 5, List.chain'_singleton 5⟩⟩)).2.1

/-! ## Drag insertion point (`DragDropHelper.getDragAfterElement`)

The DOM candidates are reduced to their bounding rectangles (top and
height, exact rational coordinates); the reduce over the candidate list
carries the running `\x7b offset, element \x7d` accumulator, with the
element identified by its index in document order. -/

/-- A candidate's bounding box. -/
structure Rect where
  top : ℚ
  height : ℚ
deriving DecidableEq

/-- `offset = y - box.top - box.height / 2`. -/
def offsetOf (y : ℚ) (r : Rect) : ℚ := y - r.top - r.height / 2

/-- `offset > closest.offset`, where the initial accumulator offset is
negative infinity. -/
def beats (offset : ℚ) : Option (ℚ × Nat) → Bool
  | none => true
  | some (o, _) => decide (o < offset)

/-- One step of the reduce. -/
def gdaeStep (y : ℚ) (closest : Option (ℚ × Nat)) (k : Nat) (r : Rect) :
    Option (ℚ × Nat) :=
  if offsetOf y r < 0 ∧ beats (offsetOf y r) closest = true then
    some (offsetOf y r, k)
  else closest

def gdaeAux (y : ℚ) (acc : Option (ℚ × Nat)) (k : Nat) :
    List Rect → Option (ℚ × Nat)
  | [] => acc
  | r :: rest => gdaeAux y (gdaeStep y acc k r) (k + 1) rest

/-- `getDragAfterElement`: the index of the chosen insert-before anchor,
or `none` for append-at-end. -/
def getDragAfterElement (y : ℚ) (rects : List Rect) : Option Nat :=
  (gdaeAux y none 0 rects).map (fun p => p.2)

theorem gdaeAux_none_iff (y : ℚ) (rest : List Rect) :
    ∀ (k : Nat) (acc : Option (ℚ × Nat)),
    gdaeAux y acc k rest = none ↔
      acc = none ∧ ∀ r ∈ rest, ¬ offsetOf y r < 0 := by
  induction rest with
  | nil =>
    intro k acc
    simp [gdaeAux]
  | cons r rest ih =>
    intro k acc
    rw [gdaeAux, ih]
    constructor
    · rintro ⟨hstep, hrest⟩
      unfold gdaeStep at hstep
      by_cases hc : offsetOf y r < 0 ∧ beats (offsetOf y r) acc = true
      · rw [if_pos hc] at hstep
        simp at hstep
      · rw [if_neg hc] at hstep
        subst hstep
        refine ⟨rfl, ?_⟩
        intro r2 hr2
        rcases List.mem_cons.mp hr2 with rfl | hr2
        · intro hoff
          exact hc ⟨hoff, rfl⟩
        · exact hrest r2 hr2
    · rintro ⟨hacc, hall⟩
      subst hacc
      have hz : gdaeStep y none k r = none := by
        unfold gdaeStep
        rw [if_neg]
        rintro ⟨hoff, _⟩
        exact hall r (by simp) hoff
      rw [hz]
      exact ⟨rfl, fun r2 hr2 => hall r2 (by simp [hr2])⟩

/-- The reference "leftmost best negative offset" of a candidate list,
indices starting at `k`: picks the negative offset closest to zero,
keeping the earlier candidate on ties. -/
def bestNeg (y : ℚ) (k : Nat) : List Rect → Option (ℚ × Nat)
  | [] => none
  | r :: rest =>
    if offsetOf y r < 0 then
      match bestNeg y (k + 1) rest with
      | none => some (offsetOf y r, k)
      | some (o, j) =>
        if offsetOf y r < o then some (o, j) else some (offsetOf y r, k)
    else bestNeg y (k + 1) rest

/-- The accumulator combination: later candidates win only strictly. -/
def combine (acc b : Option (ℚ × Nat)) : Option (ℚ × Nat) :=
  match b with
  | none => acc
  | some (o, j) =>
    match acc with
    | none => some (o, j)
    | some (oa, _) => if oa < o then some (o, j) else acc

theorem gdaeAux_eq_combine (y : ℚ) (rest : List Rect) :
    ∀ (k : Nat) (acc : Option (ℚ × Nat)),
    gdaeAux y acc k rest = combine acc (bestNeg y k rest) := by
  induction rest with
  | nil =>
    intro k acc
    rw [gdaeAux, bestNeg]
    rfl
  | cons r rest ih =>
    intro k acc
    rw [gdaeAux, ih, bestNeg]
    by_cases hoff : offsetOf y r < 0
    · rw [if_pos hoff]
      rcases acc with _ | ⟨oa, ia⟩
      · have hstep : gdaeStep y none k r = some (offsetOf y r, k) := by
          unfold gdaeStep
          rw [if_pos ⟨hoff, rfl⟩]
        rw [hstep]
        rcases hb : bestNeg y (k + 1) rest with _ | ⟨o, j⟩
        · rfl
        · by_cases hcmp : offsetOf y r < o
          · simp [combine, hcmp]
          · simp [combine, hcmp]
      · by_cases hbeat : oa < offsetOf y r
        · have hstep : gdaeStep y (some (oa, ia)) k r =
              some (offsetOf y r, k) := by
            unfold gdaeStep
            rw [if_pos ⟨hoff, by simp [beats, hbeat]⟩]
          rw [hstep]
          rcases hb : bestNeg y (k + 1) rest with _ | ⟨o, j⟩
          · simp [combine, hbeat]
          · by_cases hcmp : offsetOf y r < o
            · have h3 : oa < o := lt_trans hbeat hcmp
              simp [combine, hcmp, h3]
            · simp [combine, hcmp, hbeat]
        · have hstep : gdaeStep y (some (oa, ia)) k r = some (oa, ia) := by
            unfold gdaeStep
            rw [if_neg]
            rintro ⟨_, hbt⟩
            simp [beats] at hbt
            exact hbeat hbt
          rw [hstep]
          rcases hb : bestNeg y (k + 1) rest with _ | ⟨o, j⟩
          · simp [combine, hbeat]
          · by_cases hcmp : offsetOf y r < o
            · simp [combine, hcmp]
            · have h3 : ¬ oa < o := fun hcon =>
                hbeat (lt_of_lt_of_le hcon (le_of_not_lt hcmp))
              simp [combine, hcmp, hbeat, h3]
    · rw [if_neg hoff]
      have hstep : gdaeStep y acc k r = acc := by
        unfold gdaeStep
        rw [if_neg]
        rintro ⟨hc, _⟩
        exact hoff hc
      rw [hstep]

theorem bestNeg_none_iff (y : ℚ) (l : List Rect) :
    ∀ k, bestNeg y k l = none ↔ ∀ r ∈ l, ¬ offsetOf y r < 0 := by
  induction l with
  | nil =>
    intro k
    simp [bestNeg]
  | cons r rest ih =>
    intro k
    rw [bestNeg]
    by_cases hoff : offsetOf y r < 0
    · rw [if_pos hoff]
      constructor
      · intro h
        rcases hb : bestNeg y (k + 1) rest with _ | ⟨o, j⟩ <;> rw [hb] at h
        · simp at h
        · by_cases hcmp : offsetOf y r < o <;> simp [hcmp] at h
      · intro hall
        exact absurd hoff (hall r (by simp))
    · rw [if_neg hoff, ih (k + 1)]
      constructor
      · intro hall r2 hr2
        rcases List.mem_cons.mp hr2 with rfl | h2
        · exact hoff
        · exact hall r2 h2
      · intro hall r2 hr2
        exact hall r2 (by simp [hr2])

theorem bestNeg_shift (y : ℚ) (l : List Rect) :
    ∀ k, bestNeg y k l = (bestNeg y 0 l).map (fun p => (p.1, p.2 + k)) := by
  induction l with
  | nil =>
    intro k
    rfl
  | cons r rest ih =>
    intro k
    rw [bestNeg, bestNeg, ih (k + 1), ih 1]
    rcases hb : bestNeg y 0 rest with _ | ⟨o, j⟩
    · by_cases hoff : offsetOf y r < 0 <;> simp [hoff]
    · by_cases hoff : offsetOf y r < 0
      · by_cases hcmp : offsetOf y r < o <;>
          simp [hoff, hcmp, Nat.add_assoc, Nat.add_comm, Nat.add_left_comm]
      · simp [hoff, Nat.add_assoc, Nat.add_comm, Nat.add_left_comm]

theorem bestNeg_spec (y : ℚ) (l : List Rect) : ∀ (o : ℚ) (i : Nat),
    bestNeg y 0 l = some (o, i) →
    ∃ hi : i < l.length, o = offsetOf y (l.get ⟨i, hi⟩) ∧ o < 0 ∧
      ∀ j (hj : j < l.length), offsetOf y (l.get ⟨j, hj⟩) < 0 →
        (j < i → offsetOf y (l.get ⟨j, hj⟩) < o) ∧
        (i < j → offsetOf y (l.get ⟨j, hj⟩) ≤ o) := by
  induction l with
  | nil =>
    intro o i h
    simp [bestNeg] at h
  | cons r rest ih =>
    intro o i h
    rw [bestNeg, bestNeg_shift y rest 1] at h
    by_cases hoff : offsetOf y r < 0
    · rw [if_pos hoff] at h
      rcases hb : bestNeg y 0 rest with _ | ⟨o0, j0⟩ <;> rw [hb] at h
      · simp at h
        obtain ⟨ho, hi⟩ := h
        subst hi
        refine ⟨by simp, by simp [ho], by rw [← ho]; exact hoff, ?_⟩
        intro j hj hneg
        refine ⟨by omega, ?_⟩
        intro hgt
        exfalso
        rcases j with _ | j2
        · omega
        · have hj2 : j2 < rest.length := by simpa using hj
          exact (bestNeg_none_iff y rest 0).mp hb _ (List.get_mem rest j2 hj2) hneg
      · by_cases hcmp : offsetOf y r < o0
        · simp [hcmp] at h
          obtain ⟨ho, hi⟩ := h
          subst hi
          rcases ih o0 j0 hb with ⟨hj0, ho0, hneg0, hbound0⟩
          refine ⟨by simpa using hj0, by simpa [ho] using ho0, by rw [← ho]; exact hneg0, ?_⟩
          intro j hj hneg
          rcases j with _ | j2
          · constructor
            · intro _
              rw [← ho]
              exact hcmp
            · intro hgt
              rw [← ho]
              exact le_of_lt hcmp
          · have hj2 : j2 < rest.length := by simpa using hj
            have hget : (r :: rest).get ⟨j2 + 1, hj⟩ = rest.get ⟨j2, hj2⟩ := rfl
            rw [hget] at hneg ⊢
            have hb0 := hbound0 j2 hj2 hneg
            constructor
            · intro hlt
              rw [← ho]
              exact hb0.1 (by omega)
            · intro hgt
              rw [← ho]
              exact hb0.2 (by omega)
        · simp [hcmp] at h
          obtain ⟨ho, hi⟩ := h
          subst hi
          rcases ih o0 j0 hb with ⟨hj0, ho0, hneg0, hbound0⟩
          refine ⟨by simp, by simp [← ho], by rw [← ho]; exact hoff, ?_⟩
          intro j hj hneg
          refine ⟨by omega, ?_⟩
          intro hgt
          rcases j with _ | j2
          · omega
          · have hj2 : j2 < rest.length := by simpa using hj
            have hget : (r :: rest).get ⟨j2 + 1, hj⟩ = rest.get ⟨j2, hj2⟩ := rfl
            rw [hget] at hneg ⊢
            have hb0 := hbound0 j2 hj2 hneg
            have hle : offsetOf y (rest.get ⟨j2, hj2⟩) ≤ o0 := by
              rcases Nat.lt_or_ge j2 j0 with h2 | h2
              · exact le_of_lt (hb0.1 h2)
              · rcases Nat.eq_or_lt_of_le h2 with h3 | h3
                · subst h3
                  exact le_of_eq ho0.symm
                · exact hb0.2 h3
            rw [← ho]
            exact le_trans hle (le_of_not_lt hcmp)
    · rw [if_neg hoff] at h
      rcases hb : bestNeg y 0 rest with _ | ⟨o0, j0⟩ <;> rw [hb] at h
      · simp at h
      · simp at h
        obtain ⟨ho, hi⟩ := h
        subst hi
        rcases ih o0 j0 hb with ⟨hj0, ho0, hneg0, hbound0⟩
        refine ⟨by simpa using hj0, by simpa [← ho] using ho0, by rw [← ho]; exact hneg0, ?_⟩
        intro j hj hneg
        rcases j with _ | j2
        · exact absurd hneg hoff
        · have hj2 : j2 < rest.length := by simpa using hj
          have hget : (r :: rest).get ⟨j2 + 1, hj⟩ = rest.get ⟨j2, hj2⟩ := rfl
          rw [hget] at hneg ⊢
          have hb0 := hbound0 j2 hj2 hneg
          constructor
          · intro hlt
            rw [← ho]
            exact hb0.1 (by omega)
          · intro hgt
            rw [← ho]
            exact hb0.2 (by omega)

/-- C4: the drag insertion-point computation returns the candidate whose
negative offset (`y - top - height/2`) is closest to zero, preferring the
earliest candidate in document order under equal offsets, and returns no
anchor exactly when no candidate has a negative offset; concretely, for
three stacked candidates with midpoints 35, 105, 175 the pointer at y=10
selects candidate 0, at y=60 candidate 1, at y=130 candidate 2, and at
y=200 no anchor. -/
theorem C4_drag_after_element (y : ℚ) (rects : List Rect) :
    (getDragAfterElement y rects = none ↔
      ∀ r ∈ rects, ¬ offsetOf y r < 0) ∧
    (∀ i, getDragAfterElement y rects = some i →
      ∃ hi : i < rects.length,
        offsetOf y (rects.get ⟨i, hi⟩) < 0 ∧
        ∀ j (hj : j < rects.length), offsetOf y (rects.get ⟨j, hj⟩) < 0 →
          offsetOf y (rects.get ⟨j, hj⟩) ≤ offsetOf y (rects.get ⟨i, hi⟩) ∧
          (offsetOf y (rects.get ⟨j, hj⟩) = offsetOf y (rects.get ⟨i, hi⟩) →
            i ≤ j)) ∧
    (getDragAfterElement 10 [⟨10, 50⟩, ⟨80, 50⟩, ⟨150, 50⟩] = some 0 ∧
     getDragAfterElement 60 [⟨10, 50⟩, ⟨80, 50⟩, ⟨150, 50⟩] = some 1 ∧
     getDragAfterElement 130 [⟨10, 50⟩, ⟨80, 50⟩, ⟨150, 50⟩] = some 2 ∧
     getDragAfterElement 200 [⟨10, 50⟩, ⟨80, 50⟩, ⟨150, 50⟩] = none) := by
  have hrw : gdaeAux y none 0 rects = bestNeg y 0 rects := by
    rw [gdaeAux_eq_combine]
    rcases bestNeg y 0 rects with _ | ⟨o, j⟩ <;> rfl
  refine ⟨?_, ?_, ?_⟩
  · unfold getDragAfterElement
    rw [hrw]
    rcases hb : bestNeg y 0 rects with _ | ⟨o, j⟩
    · constructor
      · intro _
        exact (bestNeg_none_iff y rects 0).mp hb
      · intro _
        rfl
    · constructor
      · intro hcontra
        exact absurd hcontra (by simp)
      · intro hall
        have hn := (bestNeg_none_iff y rects 0).mpr hall
        rw [hb] at hn
        exact absurd hn (by simp)
  · intro i h
    unfold getDragAfterElement at h
    rw [hrw] at h
    rcases hb : bestNeg y 0 rects with _ | ⟨o, j⟩ <;> rw [hb] at h
    · simp at h
    · have hji : j = i := by simp at h; omega
      subst hji
      rcases bestNeg_spec y rects o j hb with ⟨hi, ho, hneg, hbound⟩
      refine ⟨hi, by rw [← ho]; exact hneg, ?_⟩
      intro j2 hj2 hneg2
      have hb2 := hbound j2 hj2 hneg2
      constructor
      · rcases Nat.lt_trichotomy j2 j with h2 | h2 | h2
        · rw [← ho]
          exact le_of_lt (hb2.1 h2)
        · subst h2
          exact le_refl _
        · rw [← ho]
          exact hb2.2 h2
      · intro heq
        rcases Nat.lt_trichotomy j2 j with h2 | h2 | h2
        · exfalso
          have hlt := hb2.1 h2
          rw [heq, ← ho] at hlt
          exact lt_irrefl _ (ho ▸ hlt)
        · omega
        · omega
  · refine ⟨?_, ?_, ?_, ?_⟩ <;>
      norm_num [getDragAfterElement, gdaeAux, gdaeStep, beats, offsetOf]

/-- C4 witness: the general characterization applied to the concrete
three-candidate geometry at y=60. -/
theorem C4_witness :
    ∃ hi : 1 < ([⟨10, 50⟩, ⟨80, 50⟩, ⟨150, 50⟩] : List Rect).length,
      offsetOf 60 (([⟨10, 50⟩, ⟨80, 50⟩, ⟨150, 50⟩] : List Rect).get ⟨1, hi⟩) < 0 ∧
      ∀ j (hj : j < ([⟨10, 50⟩, ⟨80, 50⟩, ⟨150, 50⟩] : List Rect).length),
        offsetOf 60 (([⟨10, 50⟩, ⟨80, 50⟩, ⟨150, 50⟩] : List Rect).get ⟨j, hj⟩) < 0 →
        offsetOf 60 (([⟨10, 50⟩, ⟨80, 50⟩, ⟨150, 50⟩] : List Rect).get ⟨j, hj⟩) ≤
          offsetOf 60 (([⟨10, 50⟩, ⟨80, 50⟩, ⟨150, 50⟩] : List Rect).get ⟨1, hi⟩) ∧
        (offsetOf 60 (([⟨10, 50⟩, ⟨80, 50⟩, ⟨150, 50⟩] : List Rect).get ⟨j, hj⟩) =
          offsetOf 60 (([⟨10, 50⟩, ⟨80, 50⟩, ⟨150, 50⟩] : List Rect).get ⟨1, hi⟩) →
          1 ≤ j) :=
  (C4_drag_after_element 60 [⟨10, 50⟩, ⟨80, 50⟩, ⟨150, 50⟩]).2.1 1
    (by norm_num [getDragAfterElement, gdaeAux, gdaeStep, beats, offsetOf])

theorem escChar_of_plain (c : Char) (h1 : c ≠ '&') (h2 : c ≠ Char.ofNat 160)
    (h3 : c ≠ '<') (h4 : c ≠ '>') : escChar c = [c] := by
  unfold escChar
  rw [if_neg h1, if_neg h2, if_neg h3, if_neg h4]

theorem escChar_quote_count (c : Char) : (escChar c).count '"' = [c].count '"' := by
  by_cases h1 : c = '&'
  · subst h1
    decide
  · by_cases h2 : c = Char.ofNat 160
    · subst h2
      decide
    · by_cases h3 : c = '<'
      · subst h3
        decide
      · by_cases h4 : c = '>'
        · subst h4
          decide
        · rw [escChar_of_plain c h1 h2 h3 h4]

theorem flatMap_escChar_quote_count (l : List Char) :
    (l.flatMap escChar).count '"' = l.count '"' := by
  induction l with
  | nil => rfl
  | cons c cs ih =>
    rw [List.flatMap_cons, List.count_append, ih, escChar_quote_count]
    cases h : c == ('"' : Char) <;> simp [List.count_cons, h]
    omega

/-- C10: the shared escaping routine rewrites the characters needing
escapes (ampersand to &amp;, less-than to &lt;, greater-than to &gt;),
leaves every other single character — in particular the double quote —
unchanged, and preserves the number of double quotes of every input;
consequently an image src/alt or a template attribute value containing a
double quote reaches the double-quoted attribute position with the quote
intact. -/
theorem C10_escape_preserves_quotes :
    (escapeHtml "&" = "&amp;" ∧ escapeHtml "<" = "&lt;" ∧ escapeHtml ">" = "&gt;") ∧
    (∀ c : Char, c ≠ '&' → c ≠ Char.ofNat 160 → c ≠ '<' → c ≠ '>' →
      escapeHtml (String.mk [c]) = String.mk [c]) ∧
    (∀ s : String, (escapeHtml s).data.count '"' = s.data.count '"') ∧
    imageRender [("src", Value.vStr "a\"b"), ("alt", Value.vStr "pic")] [] =
      "<img src=\"a\"b\" alt=\"pic\">" ∧
    buildAttributes [("lang", AVal.str "e\"n")] = " lang=\"e\"n\"".data := by
  refine ⟨⟨rfl, rfl, rfl⟩, ?_, ?_, rfl, rfl⟩
  · intro c h1 h2 h3 h4
    show String.mk ([c].flatMap escChar) = String.mk [c]
    rw [List.flatMap_cons]
    rw [escChar_of_plain c h1 h2 h3 h4]
    rfl
  · intro s
    exact flatMap_escChar_quote_count s.data

/-- C10 witness: the double quote itself passes through the escaper
unchanged. -/
theorem C10_witness : escapeHtml (String.mk ['"']) = String.mk ['"'] :=
  C10_escape_preserves_quotes.2.1 '"' (by decide) (by decide) (by decide) (by decide)

end VHB
